import Mathlib

/-
Verification development for the query-engine build pipeline of
components/llm_service/src/services/query_service.py.

The pipeline is shallowly embedded as pure Lean functions over an explicit
system state (metadata store records, staged files, uploaded bucket objects,
and an event trace).  External collaborators (the Vertex embedding service,
cloud storage, the Firestore model layer, and the langchain text splitter)
are modelled as an environment of oracle functions; points where their code
is outside this repository are marked in the doc comments.
-/

namespace QS

/-- Character sequence standing for a Python string of document text. -/
abbrev TextS := List Char

/-- Numeric embedding vector; the float values themselves are irrelevant to
the verified structure, so vectors are modelled as integer lists. -/
abbrev Vec := List Int

/-- One record of an embedding index file: a global chunk id paired with its
embedding vector (query_service.py line 590-599 serializes it as JSON). -/
abbrev EmbRecord := Nat × Vec

/-- Constant CHUNK_SIZE = 1000 (query_service.py line 57). -/
def CHUNK_SIZE : Nat := 1000

/-- Constant MAX_NUM_TEXT_CHUNK_PROCESS = 1000 (query_service.py line 51). -/
def MAX_NUM_TEXT_CHUNK_PROCESS : Nat := 1000

/-- Constant ITEMS_PER_REQUEST = 5 (query_service.py line 63). -/
def ITEMS_PER_REQUEST : Nat := 5

/-- Constant DIMENSIONS = 768 (query_service.py line 66). -/
def DIMENSIONS : Nat := 768

/-- Modelled from the spec: DEFAULT_QUERY_EMBEDDING_MODEL comes from the
config module, which is not under src/; only the fact that it is a fixed
string matters. -/
def DEFAULT_QUERY_EMBEDDING_MODEL : String := "VertexAI-Embedding"

/-- QueryEngine record of the metadata store (fields set at creation,
query_service.py lines 237-241). -/
structure QueryEngineRec where
  id : Nat
  name : String
  createdBy : String
  llmType : String
  isPublic : Bool
deriving DecidableEq

/-- QueryDocument record (query_service.py lines 432-437). -/
structure QueryDocumentRec where
  id : Nat
  queryEngineId : Nat
  queryEngine : String
  docUrl : String
  indexStart : Nat
  indexEnd : Nat
deriving DecidableEq

/-- QueryDocumentChunk record (query_service.py lines 440-445). -/
structure QueryDocumentChunkRec where
  id : Nat
  queryEngineId : Nat
  queryDocumentId : Nat
  index : Nat
  text : TextS
deriving DecidableEq

/-- A file sitting in a scoped temporary directory created by
tempfile.mkdtemp (query_service.py line 577); directories are identified by
the order in which they were created. -/
structure FileEntry where
  dir : Nat
  fname : String
  records : List EmbRecord
deriving DecidableEq

/-- Observable effects of a build, in program order. -/
inductive Event where
  | mkTmpDir (dir : Nat)
  | writeFile (dir : Nat) (fname : String) (records : List EmbRecord)
  | uploadFile (dir : Nat) (fname : String) (records : List EmbRecord)
  | rmTree (dir : Nat)
  | saveEngine (engineId : Nat)
  | saveDoc (doc : QueryDocumentRec)
  | saveChunk (chunk : QueryDocumentChunkRec)
  | deleteDocsByEngine (engineId : Nat)
  | deleteChunksByEngine (engineId : Nat)
  | deleteEngine (engineId : Nat)
deriving DecidableEq

/-- The whole mutable world the build touches: metadata store collections,
local temporary files, the staging bucket contents, id generators and the
event trace. -/
structure SysState where
  engines : List QueryEngineRec
  documents : List QueryDocumentRec
  chunks : List QueryDocumentChunkRec
  fileSystem : List FileEntry
  bucket : List (String × List EmbRecord)
  nextModelId : Nat
  nextDirId : Nat
  trace : List Event
deriving DecidableEq

/-- A state with nothing in it. -/
def initialState : SysState :=
  { engines := [], documents := [], chunks := [], fileSystem := [],
    bucket := [], nextModelId := 0, nextDirId := 0, trace := [] }

/-- Outcome of _read_doc for one downloaded file (query_service.py lines
397-406): the read may raise, return None (no content / unsupported type),
or return a list of text sections.  The actual file parsing (open, pypdf,
langchain CSVLoader) is external IO, so the per-document outcome is an
environment input. -/
inductive ReadResult where
  | readError
  | noContent
  | sections (texts : List TextS)
deriving DecidableEq

/-- True when _read_doc fails to produce text for the document. -/
def readFails : ReadResult → Bool
  | ReadResult.readError => true
  | ReadResult.noContent => true
  | ReadResult.sections _ => false

/-- One downloaded document, i.e. one (doc_name, doc_url, doc_filepath)
triple from _download_files_to_local, together with its read outcome. -/
structure DocInput where
  name : String
  url : String
  read : ReadResult

/-- Environment of external collaborators: the Vertex embedding model (a
whole get_embeddings call either raises — batchFails — or returns one
vector per input — embedOne), the downloaded corpus, and whether matching
engine index creation raises. -/
structure Env where
  batchFails : List TextS → Bool
  embedOne : TextS → Vec
  docs : List DocInput
  createIndexFails : Bool

/-- Python exceptions distinguished by the pipeline. -/
inductive Err where
  | validationError (msg : String)
  | resourceNotFound (msg : String)
  | noDocumentsIndexed (msg : String)
  | npStackEmpty
  | unboundLocalDir
  | indexCreateError
  | internalError (cause : Err)
deriving DecidableEq

/-- Innermost cause of a (possibly repeatedly wrapped) internal error. -/
def rootCause : Err → Err
  | Err.internalError e => rootCause e
  | e => e

/-- Fuel-driven worker for chunkList (structural recursion so that concrete
runs reduce in the kernel). -/
def chunkListAux (fuel : Nat) (n : Nat) (l : List α) : List (List α) :=
  match fuel with
  | 0 => []
  | fuel + 1 =>
      if l.isEmpty || n == 0 then []
      else l.take n :: chunkListAux fuel n (l.drop n)

/-- Successive slices of size n of a list, the translation of Python
`for i in range(0, len(l), n): yield l[i : i + n]`. -/
def chunkList (n : Nat) (l : List α) : List (List α) :=
  chunkListAux l.length n l

/-- Modelled from the spec: the text chunker is langchain
CharacterTextSplitter(chunk_size=CHUNK_SIZE, chunk_overlap=0)
(query_service.py lines 382-383), whose code is not part of this
repository.  Spec 4.3: split each section into fixed-size chunks of
CHUNK_SIZE characters with zero overlap, keeping the non-empty trailing
partial chunk. -/
def split_text (chunk_size : Nat) (text : TextS) : List TextS :=
  chunkList chunk_size text

/-- Translation of _generate_batches (query_service.py lines 516-520). -/
def generate_batches (text_chunks : List TextS) (batch_size : Nat) :
    List (List TextS) :=
  chunkList batch_size text_chunks

/-- Translation of _encode_texts_to_embeddings (query_service.py lines
503-512): a model.get_embeddings call that raises is caught and turned into
one None per input sentence; a call that succeeds yields one vector per
input. -/
def encode_texts_to_embeddings (env : Env) (sentence_list : List TextS) :
    List (Option Vec) :=
  if env.batchFails sentence_list then sentence_list.map (fun _ => none)
  else sentence_list.map (fun t => some (env.embedOne t))

/-- The embeddings_list accumulated by _get_embedding_batched
(query_service.py lines 528-544): per-batch results concatenated in
submission order. -/
def embeddings_list (env : Env) (text_chunks : List TextS) :
    List (Option Vec) :=
  (generate_batches text_chunks ITEMS_PER_REQUEST).flatMap
    (encode_texts_to_embeddings env)

/-- The is_successful mask of _get_embedding_batched (query_service.py lines
546-549); Python zip truncates to the shorter list. -/
def is_successful_mask (env : Env) (text_chunks : List TextS) : List Bool :=
  (text_chunks.zip (embeddings_list env text_chunks)).map
    (fun p => p.2.isSome)

/-- Translation of _get_embedding_batched (query_service.py lines 523-553):
returns the is_successful mask together with the stacked successful
embeddings.  np.stack raises ValueError when no embedding succeeded, which
is modelled by the npStackEmpty error. -/
def get_embedding_batched (env : Env) (text_chunks : List TextS) :
    Except Err (List Bool × List Vec) :=
  if ((embeddings_list env text_chunks).filterMap id).isEmpty then
    Except.error Err.npStackEmpty
  else
    Except.ok (is_successful_mask env text_chunks,
      (embeddings_list env text_chunks).filterMap id)

/-- Selection of a list by a same-length boolean mask, the model of numpy
boolean indexing ids[is_successful] (query_service.py line 598). -/
def maskFilter : List Bool → List α → List α
  | b :: m, x :: l => if b then x :: maskFilter m l else maskFilter m l
  | _, _ => []

/-- Pathlib Path(doc_name).stem: base name without its final extension. -/
def path_stem (p : String) : String :=
  let base := (p.splitOn ("/")).getLastD ("")
  let parts := base.splitOn (".")
  if parts.length ≤ 1 then base
  else String.intercalate (".") parts.dropLast

/-- Name of the index file written for the slice starting at index_base
(query_service.py lines 602-604). -/
def index_file_name (doc_name : String) (index_base : Nat) : String :=
  path_stem doc_name ++ "_" ++ Nat.repr index_base ++ "_index.json"

/-- One iteration of the while loop of _generate_index_data per slice of at
most MAX_NUM_TEXT_CHUNK_PROCESS chunks (query_service.py lines 564-617):
make a fresh temp dir, embed the slice, and write the masked (id, vector)
records to a file in that dir; the accumulator `last` remembers the most
recently created dir, which is what the Python function returns (the local
variable embeddings_dir). -/
def gen_index_go (env : Env) (doc_name : String) :
    List (List TextS) → Nat → Option Nat → SysState →
    SysState × Except Err (Nat × Nat)
  | [], index_base, last, st =>
      match last with
      | none => (st, Except.error Err.unboundLocalDir)
      | some d => (st, Except.ok (index_base, d))
  | process_chunks :: rest, index_base, _, st =>
      let d := st.nextDirId
      let st1 := { st with nextDirId := d + 1,
                           trace := st.trace ++ [Event.mkTmpDir d] }
      match get_embedding_batched env process_chunks with
      | Except.error e => (st1, Except.error e)
      | Except.ok (mask, chunk_embeddings) =>
          let ids := List.range' index_base process_chunks.length
          let sel := (maskFilter mask ids).zip chunk_embeddings
          let fname := index_file_name doc_name index_base
          let st2 := { st1 with
            fileSystem := st1.fileSystem ++ [⟨d, fname, sel⟩],
            trace := st1.trace ++ [Event.writeFile d fname sel] }
          gen_index_go env doc_name rest (index_base + process_chunks.length)
            (some d) st2

/-- Translation of _generate_index_data (query_service.py lines 556-619):
returns the advanced index_base and the identifier of the directory held by
the Python variable embeddings_dir at return time (only the last slice's
directory — earlier slices leave their own directories behind). -/
def generate_index_data (env : Env) (doc_name : String)
    (text_chunks : List TextS) (index_base : Nat) (st : SysState) :
    SysState × Except Err (Nat × Nat) :=
  gen_index_go env doc_name (chunkList MAX_NUM_TEXT_CHUNK_PROCESS text_chunks)
    index_base none st

/-- Translation of the QueryDocumentChunk save loop (query_service.py lines
439-445): one chunk record per text chunk, failed embeddings included. -/
def save_chunks_go (qid docId : Nat) :
    Nat → List TextS → SysState → SysState
  | _, [], st => st
  | idx, t :: rest, st =>
      let c : QueryDocumentChunkRec :=
        { id := st.nextModelId, queryEngineId := qid,
          queryDocumentId := docId, index := idx, text := t }
      save_chunks_go qid docId (idx + 1) rest
        { st with chunks := st.chunks ++ [c],
                  nextModelId := st.nextModelId + 1,
                  trace := st.trace ++ [Event.saveChunk c] }

/-- Per-document result of the _process_documents loop body. -/
inductive DocStepResult where
  | notProcessed
  | processed (q : QueryDocumentRec) (newBase : Nat)
deriving DecidableEq

/-- Upload every file of temporary directory d to the staging bucket
(query_service.py lines 417-425, the os.walk loop), then delete the
directory (shutil.rmtree, line 428).  Files sitting in other directories
are neither uploaded nor deleted. -/
def upload_and_cleanup (d : Nat) (st1 : SysState) : SysState :=
  let files : List FileEntry :=
    st1.fileSystem.filter (fun f => f.dir == d)
  let uploadEvents : List Event :=
    files.map (fun f => Event.uploadFile f.dir f.fname f.records)
  let newObjects : List (String × List EmbRecord) :=
    files.map (fun f => (f.fname, f.records))
  { st1 with
    trace := (st1.trace ++ uploadEvents) ++ [Event.rmTree d],
    bucket := st1.bucket ++ newObjects,
    fileSystem := st1.fileSystem.filter (fun f => !(f.dir == d)) }

/-- Persist one QueryDocument record (query_service.py line 437). -/
def save_query_document (q : QueryDocumentRec) (st : SysState) : SysState :=
  { st with
    documents := st.documents ++ [q],
    nextModelId := st.nextModelId + 1,
    trace := st.trace ++ [Event.saveDoc q] }

/-- Straight-line tail of the _process_documents loop body after the text
chunks are known (query_service.py lines 413-449): generate the index
files, upload every file of the returned temporary directory to the
staging bucket, delete that directory, then persist the QueryDocument and
its QueryDocumentChunk records. -/
def index_and_persist_doc (env : Env) (qid : Nat) (qname : String)
    (doc_name doc_url : String) (text_chunks : List TextS)
    (index_base : Nat) (st : SysState) :
    SysState × Except Err DocStepResult :=
  match generate_index_data env doc_name text_chunks index_base st with
  | (st1, Except.error e) => (st1, Except.error e)
  | (st1, Except.ok (new_index_base, d)) =>
      let st3 := upload_and_cleanup d st1
      let q : QueryDocumentRec :=
        { id := st3.nextModelId, queryEngineId := qid, queryEngine := qname,
          docUrl := doc_url, indexStart := index_base,
          indexEnd := new_index_base }
      let st4 := save_query_document q st3
      let st5 := save_chunks_go qid q.id index_base text_chunks st4
      (st5, Except.ok (DocStepResult.processed q new_index_base))

/-- One iteration of the _process_documents document loop
(query_service.py lines 391-449): a document whose read raises or yields
no content is skipped (recorded by the caller as not processed); otherwise
its sections are chunked and handed to index_and_persist_doc. -/
def process_one_doc (env : Env) (qid : Nat) (qname : String)
    (doc : DocInput) (index_base : Nat) (st : SysState) :
    SysState × Except Err DocStepResult :=
  match doc.read with
  | ReadResult.readError => (st, Except.ok DocStepResult.notProcessed)
  | ReadResult.noContent => (st, Except.ok DocStepResult.notProcessed)
  | ReadResult.sections texts =>
      let text_chunks := texts.flatMap (split_text CHUNK_SIZE)
      index_and_persist_doc env qid qname doc.name doc.url text_chunks
        index_base st

/-- The _process_documents fold over the downloaded documents
(query_service.py lines 386-451), threading index_base and the
docs_processed / docs_not_processed accumulators. -/
def process_docs_go (env : Env) (qid : Nat) (qname : String) :
    List DocInput → Nat → List QueryDocumentRec → List String → SysState →
    SysState × Except Err (List QueryDocumentRec × List String)
  | [], _, dp, dnp, st => (st, Except.ok (dp, dnp))
  | doc :: rest, index_base, dp, dnp, st =>
      match process_one_doc env qid qname doc index_base st with
      | (st1, Except.error e) => (st1, Except.error e)
      | (st1, Except.ok DocStepResult.notProcessed) =>
          process_docs_go env qid qname rest index_base dp
            (dnp ++ [doc.url]) st1
      | (st1, Except.ok (DocStepResult.processed q nb)) =>
          process_docs_go env qid qname rest nb (dp ++ [q]) dnp st1

/-- Translation of _process_documents (query_service.py lines 364-451).
The downloaded file list comes from the environment; an empty corpus
raises NoDocumentsIndexedException (lines 377-379). -/
def process_documents (env : Env) (qid : Nat) (qname : String)
    (st : SysState) :
    SysState × Except Err (List QueryDocumentRec × List String) :=
  if env.docs.isEmpty then
    (st, Except.error (Err.noDocumentsIndexed ("No documents can be indexed")))
  else process_docs_go env qid qname env.docs 0 [] [] st

/-- Modelled from the spec: QueryEngine.find_by_name of the Firestore model
layer (common.models, not under src/); spec 6 requires exact-match lookup
by name. -/
def find_by_name (st : SysState) (name : String) : Option QueryEngineRec :=
  st.engines.find? (fun e => e.name == name)

/-- Modelled from the spec: bulk delete of all QueryDocument records of one
engine (query_service.py lines 248-250 via the metadata-store interface of
spec 6). -/
def deleteDocsOfEngine (qid : Nat) (st : SysState) : SysState :=
  { st with
    documents := (st.documents.filter (fun d => !(d.queryEngineId == qid))),
    trace := st.trace ++ [Event.deleteDocsByEngine qid] }

/-- Modelled from the spec: bulk delete of all QueryDocumentChunk records of
one engine (query_service.py lines 251-253). -/
def deleteChunksOfEngine (qid : Nat) (st : SysState) : SysState :=
  { st with
    chunks := (st.chunks.filter (fun c => !(c.queryEngineId == qid))),
    trace := st.trace ++ [Event.deleteChunksByEngine qid] }

/-- Modelled from the spec: QueryEngine.delete_by_id (query_service.py line
254). -/
def deleteEngineById (qid : Nat) (st : SysState) : SysState :=
  { st with
    engines := (st.engines.filter (fun e => !(e.id == qid))),
    trace := st.trace ++ [Event.deleteEngine qid] }

/-- Translation of build_doc_index (query_service.py lines 262-314): looks
the engine up again by name, processes the documents, fails with
NoDocumentsIndexedException when nothing was processed, then creates the
matching engine index; every exception inside the try block is re-raised
as InternalServerError(str(e)). -/
def build_doc_index (env : Env) (query_engine : String) (st : SysState) :
    SysState × Except Err (List QueryDocumentRec × List String) :=
  match find_by_name st query_engine with
  | none =>
      (st, Except.error (Err.resourceNotFound ("cant find query engine")))
  | some q_engine =>
      match process_documents env q_engine.id q_engine.name st with
      | (st1, Except.error e) => (st1, Except.error (Err.internalError e))
      | (st1, Except.ok (docs_processed, docs_not_processed)) =>
          if docs_processed.length == 0 then
            (st1, Except.error (Err.internalError
              (Err.noDocumentsIndexed ("Failed to process any documents"))))
          else if env.createIndexFails then
            (st1, Except.error (Err.internalError Err.indexCreateError))
          else (st1, Except.ok (docs_processed, docs_not_processed))

/-- State after persisting the freshly created QueryEngine record
(query_service.py lines 237-241). -/
def engine_saved_state (query_engine user_id : String) (is_public : Bool)
    (st : SysState) : SysState :=
  { st with
    engines := st.engines ++
      [{ id := st.nextModelId, name := query_engine, createdBy := user_id,
         llmType := DEFAULT_QUERY_EMBEDDING_MODEL, isPublic := is_public }],
    nextModelId := st.nextModelId + 1,
    trace := st.trace ++ [Event.saveEngine st.nextModelId] }

/-- Translation of query_engine_build (query_service.py lines 205-259):
reject duplicate names with ValidationError, persist the new QueryEngine,
build the document index, and on any exception delete the engine's
QueryDocument records, its QueryDocumentChunk records and the engine
itself before re-raising InternalServerError. -/
def query_engine_build (env : Env) (query_engine user_id : String)
    (is_public : Bool) (st : SysState) :
    SysState × Except Err (Nat × List QueryDocumentRec × List String) :=
  match find_by_name st query_engine with
  | some _ =>
      (st, Except.error (Err.validationError
        ("Query engine " ++ query_engine ++ " already exists")))
  | none =>
      let qid := st.nextModelId
      let st1 := engine_saved_state query_engine user_id is_public st
      match build_doc_index env query_engine st1 with
      | (st2, Except.error e) =>
          let st3 := deleteDocsOfEngine qid st2
          let st4 := deleteChunksOfEngine qid st3
          let st5 := deleteEngineById qid st4
          (st5, Except.error (Err.internalError e))
      | (st2, Except.ok (dp, dnp)) => (st2, Except.ok (qid, dp, dnp))

/-- The documents of a list have pairwise disjoint, contiguous index ranges
starting exactly at base b: each document starts where the previous one
ended. -/
def contiguousFromB : Nat → List QueryDocumentRec → Bool
  | _, [] => true
  | b, d :: rest =>
      (d.indexStart == b) && (decide (d.indexStart ≤ d.indexEnd)) &&
        contiguousFromB d.indexEnd rest

/-- Per-position success mask of a whole document's chunk list, slicing
first into MAX_NUM_TEXT_CHUNK_PROCESS groups exactly as
_generate_index_data does. -/
def docMask (env : Env) (text_chunks : List TextS) : List Bool :=
  (chunkList MAX_NUM_TEXT_CHUNK_PROCESS text_chunks).flatMap
    (is_successful_mask env)

/-- Success bit of every chunk position, grouped by embedding batch: a
position succeeds exactly when its whole batch call does not raise. -/
def batch_mask (env : Env) (l : List TextS) : List Bool :=
  (generate_batches l ITEMS_PER_REQUEST).flatMap
    (fun b => b.map (fun _ => !env.batchFails b))

/-- Recognizer for chunk-persistence events. -/
def isSaveChunk : Event → Bool
  | Event.saveChunk _ => true
  | _ => false


/- ## chunkList lemmas -/

theorem chunkListAux_congr {α : Type} (n : Nat) (l : List α)
    (f1 f2 : Nat) (h1 : l.length ≤ f1) (h2 : l.length ≤ f2) :
    chunkListAux f1 n l = chunkListAux f2 n l := by
  match l, f1, f2 with
  | [], f1, f2 => cases f1 <;> cases f2 <;> simp [chunkListAux]
  | x :: xs, 0, _ => simp at h1
  | x :: xs, _, 0 => simp at h2
  | x :: xs, g1 + 1, g2 + 1 =>
      simp only [chunkListAux, List.isEmpty_cons, Bool.false_or]
      by_cases hn : n == 0
      · simp [hn]
      · have hnpos : 0 < n := Nat.pos_of_ne_zero (by simpa using hn)
        have hlen : ((x :: xs).drop n).length < (x :: xs).length := by
          simp only [List.length_drop, List.length_cons]
          omega
        have hd1 : ((x :: xs).drop n).length ≤ g1 := by
          simp only [List.length_cons] at h1
          simp only [List.length_drop, List.length_cons]
          omega
        have hd2 : ((x :: xs).drop n).length ≤ g2 := by
          simp only [List.length_cons] at h2
          simp only [List.length_drop, List.length_cons]
          omega
        rw [chunkListAux_congr n ((x :: xs).drop n) g1 g2 hd1 hd2]
termination_by l.length

/-- Unfolding equation for chunkList. -/
theorem chunkList_eq {α : Type} (n : Nat) (l : List α) :
    chunkList n l =
      if l.isEmpty || n == 0 then []
      else l.take n :: chunkList n (l.drop n) := by
  unfold chunkList
  match l with
  | [] => simp [chunkListAux]
  | x :: xs =>
      simp only [List.length_cons, chunkListAux, List.isEmpty_cons,
        Bool.false_or]
      by_cases hn : n == 0
      · simp [hn]
      · have hnpos : 0 < n := Nat.pos_of_ne_zero (by simpa using hn)
        have hd : ((x :: xs).drop n).length ≤ xs.length := by
          simp only [List.length_drop, List.length_cons]
          omega
        rw [chunkListAux_congr n ((x :: xs).drop n) xs.length
          ((x :: xs).drop n).length hd (Nat.le_refl _)]

theorem chunkList_nil {α : Type} (n : Nat) :
    chunkList n ([] : List α) = [] := rfl

theorem chunkList_flatten {α : Type} (n : Nat) (hn : n ≠ 0) (l : List α) :
    (chunkList n l).flatten = l := by
  rw [chunkList_eq]
  match l with
  | [] => simp
  | x :: xs =>
      have hc : ((x :: xs).isEmpty || n == 0) = false := by simp [hn]
      rw [hc]
      simp only [Bool.false_eq_true, if_false, List.flatten_cons]
      have hnpos : 0 < n := Nat.pos_of_ne_zero hn
      have hlen : ((x :: xs).drop n).length < (x :: xs).length := by
        simp only [List.length_drop, List.length_cons]
        omega
      rw [chunkList_flatten n hn ((x :: xs).drop n), List.take_append_drop]
termination_by l.length

theorem chunkList_sum_lengths {α : Type} (n : Nat) (hn : n ≠ 0)
    (l : List α) : ((chunkList n l).map List.length).sum = l.length := by
  rw [← List.length_flatten, chunkList_flatten n hn]

theorem chunkList_mem_length_le {α : Type} (n : Nat) (l : List α) :
    ∀ s ∈ chunkList n l, s.length ≤ n := by
  intro s hs
  rw [chunkList_eq] at hs
  by_cases hc : (l.isEmpty || n == 0) = true
  · rw [hc] at hs
    simp at hs
  · rw [Bool.not_eq_true] at hc
    rw [hc] at hs
    simp only [Bool.false_eq_true, if_false, List.mem_cons] at hs
    have hn : n ≠ 0 := by
      intro h
      simp [h] at hc
    have hl : l ≠ [] := by
      intro h
      simp [h] at hc
    rcases hs with hs | hs
    · subst hs
      simp [List.length_take]
    · have hnpos : 0 < n := Nat.pos_of_ne_zero hn
      have hlpos : 0 < l.length := List.length_pos.mpr hl
      have hlen : (l.drop n).length < l.length := by
        simp only [List.length_drop]
        omega
      exact chunkList_mem_length_le n (l.drop n) s hs
termination_by l.length

theorem chunkList_mem_ne_nil {α : Type} (n : Nat) (l : List α) :
    ∀ s ∈ chunkList n l, s ≠ [] := by
  intro s hs
  rw [chunkList_eq] at hs
  by_cases hc : (l.isEmpty || n == 0) = true
  · rw [hc] at hs
    simp at hs
  · rw [Bool.not_eq_true] at hc
    rw [hc] at hs
    simp only [Bool.false_eq_true, if_false, List.mem_cons] at hs
    have hn : n ≠ 0 := by
      intro h
      simp [h] at hc
    have hl : l ≠ [] := by
      intro h
      simp [h] at hc
    have hnpos : 0 < n := Nat.pos_of_ne_zero hn
    have hlpos : 0 < l.length := List.length_pos.mpr hl
    rcases hs with hs | hs
    · subst hs
      simp only [ne_eq, ← List.length_pos, List.length_take]
      omega
    · have hlen : (l.drop n).length < l.length := by
        simp only [List.length_drop]
        omega
      exact chunkList_mem_ne_nil n (l.drop n) s hs
termination_by l.length

theorem chunkList_ne_nil {α : Type} (n : Nat) (hn : n ≠ 0) (l : List α)
    (hl : l ≠ []) : chunkList n l ≠ [] := by
  rw [chunkList_eq]
  have hc : (l.isEmpty || n == 0) = false := by simp [hn, hl]
  rw [hc]
  simp

/- ## maskFilter lemmas -/

theorem maskFilter_nil_left {α : Type} (l : List α) :
    maskFilter [] l = [] := rfl

theorem maskFilter_nil_right {α : Type} (m : List Bool) :
    maskFilter m ([] : List α) = [] := by
  cases m <;> rfl

theorem maskFilter_cons {α : Type} (b : Bool) (m : List Bool) (x : α)
    (l : List α) :
    maskFilter (b :: m) (x :: l) =
      if b then x :: maskFilter m l else maskFilter m l := rfl

theorem maskFilter_append {α : Type} (m₁ m₂ : List Bool) (l₁ l₂ : List α)
    (h : m₁.length = l₁.length) :
    maskFilter (m₁ ++ m₂) (l₁ ++ l₂) =
      maskFilter m₁ l₁ ++ maskFilter m₂ l₂ := by
  induction m₁ generalizing l₁ with
  | nil =>
      match l₁ with
      | [] => rfl
      | x :: xs => simp at h
  | cons b m ih =>
      match l₁ with
      | [] => simp at h
      | x :: xs =>
          simp only [List.length_cons, Nat.succ_inj] at h
          simp only [List.cons_append, maskFilter_cons, ih xs h]
          cases b <;> simp

theorem maskFilter_sublist {α : Type} (m : List Bool) (l : List α) :
    List.Sublist (maskFilter m l) l := by
  induction m generalizing l with
  | nil => simp [maskFilter_nil_left]
  | cons b m ih =>
      match l with
      | [] => simp [maskFilter_nil_right]
      | x :: xs =>
          rw [maskFilter_cons]
          cases b
          · simp only [Bool.false_eq_true, if_false]
            exact List.Sublist.cons x (ih xs)
          · simp only [if_true]
            exact List.Sublist.cons₂ x (ih xs)

theorem maskFilter_mem {α : Type} (m : List Bool) (l : List α) (x : α)
    (h : x ∈ maskFilter m l) : x ∈ l :=
  (maskFilter_sublist m l).mem h

theorem maskFilter_length_le {α : Type} (m : List Bool) (l : List α) :
    (maskFilter m l).length ≤ l.length :=
  (maskFilter_sublist m l).length_le

theorem maskFilter_zip {α β : Type} (m : List Bool) :
    ∀ (a : List α) (b : List β),
      (maskFilter m a).zip (maskFilter m b) = maskFilter m (a.zip b) := by
  induction m with
  | nil =>
      intro a b
      rfl
  | cons c m ih =>
      intro a b
      match a, b with
      | [], _ => rfl
      | x :: xs, [] =>
          rw [maskFilter_nil_right, maskFilter_cons]
          have hz : (x :: xs).zip ([] : List β) = [] := rfl
          rw [hz, maskFilter_nil_right]
          cases c <;> simp [List.zip_nil_right, maskFilter_nil_right]
      | x :: xs, y :: ys =>
          rw [maskFilter_cons, maskFilter_cons, List.zip_cons_cons,
            maskFilter_cons]
          cases c <;> simp [ih xs ys]

/- ## Embedding pipeline lemmas -/

/-- Entry of the embeddings list at one position: the vector when the
position's batch succeeded, the None failure marker otherwise. -/
def embedBit (env : Env) (t : TextS) (s : Bool) : Option Vec :=
  if s then some (env.embedOne t) else none

theorem flatMap_length_pointwise {α β : Type} (bs : List (List α))
    (f : List α → List β) (hf : ∀ b ∈ bs, (f b).length = b.length) :
    (bs.flatMap f).length = bs.flatten.length := by
  induction bs with
  | nil => rfl
  | cons b rest ih =>
      simp only [List.flatMap_cons, List.flatten_cons, List.length_append,
        hf b (List.mem_cons_self b rest)]
      rw [ih (fun x hx => hf x (List.mem_cons_of_mem b hx))]

theorem encode_length (env : Env) (b : List TextS) :
    (encode_texts_to_embeddings env b).length = b.length := by
  unfold encode_texts_to_embeddings
  split <;> simp

theorem ITEMS_PER_REQUEST_ne_zero : ITEMS_PER_REQUEST ≠ 0 := by decide

theorem MAX_CHUNK_ne_zero : MAX_NUM_TEXT_CHUNK_PROCESS ≠ 0 := by decide

theorem CHUNK_SIZE_ne_zero : CHUNK_SIZE ≠ 0 := by decide

theorem embeddings_list_length (env : Env) (l : List TextS) :
    (embeddings_list env l).length = l.length := by
  unfold embeddings_list generate_batches
  rw [flatMap_length_pointwise _ _ (fun b _ => encode_length env b),
    chunkList_flatten ITEMS_PER_REQUEST ITEMS_PER_REQUEST_ne_zero]

theorem batch_mask_length (env : Env) (l : List TextS) :
    (batch_mask env l).length = l.length := by
  unfold batch_mask generate_batches
  rw [flatMap_length_pointwise _ _ (fun b _ => by simp),
    chunkList_flatten ITEMS_PER_REQUEST ITEMS_PER_REQUEST_ne_zero]

theorem zipWith_const_map {α β γ : Type} (g : α → β → γ) (c : β)
    (l : List α) : List.zipWith g l (l.map (fun _ => c)) =
      l.map (fun t => g t c) := by
  induction l with
  | nil => rfl
  | cons x xs ih =>
      show g x c :: List.zipWith g xs (xs.map (fun _ => c)) =
        g x c :: xs.map (fun t => g t c)
      rw [ih]

theorem encode_eq_zipWith (env : Env) (b : List TextS) :
    encode_texts_to_embeddings env b =
      List.zipWith (embedBit env) b
        (b.map (fun _ => !env.batchFails b)) := by
  unfold encode_texts_to_embeddings
  cases hf : env.batchFails b
  · simp only [hf, Bool.false_eq_true, if_false, Bool.not_false,
      zipWith_const_map]
    rfl
  · simp only [hf, if_true, Bool.not_true, zipWith_const_map]
    rfl

theorem flatMap_encode_zipWith (env : Env) (bs : List (List TextS)) :
    bs.flatMap (encode_texts_to_embeddings env) =
      List.zipWith (embedBit env) bs.flatten
        (bs.flatMap (fun b => b.map (fun _ => !env.batchFails b))) := by
  induction bs with
  | nil => rfl
  | cons b rest ih =>
      simp only [List.flatMap_cons, List.flatten_cons]
      rw [encode_eq_zipWith env b, ih, List.zipWith_append]
      simp

theorem embeddings_list_zipWith (env : Env) (l : List TextS) :
    embeddings_list env l =
      List.zipWith (embedBit env) l (batch_mask env l) := by
  unfold embeddings_list batch_mask
  rw [flatMap_encode_zipWith env]
  rw [show (generate_batches l ITEMS_PER_REQUEST).flatten = l from
    chunkList_flatten ITEMS_PER_REQUEST ITEMS_PER_REQUEST_ne_zero l]

theorem zip_zipWith_isSome (env : Env) (l : List TextS) :
    ∀ (m : List Bool), m.length = l.length →
      (l.zip (List.zipWith (embedBit env) l m)).map
        (fun p => p.2.isSome) = m := by
  induction l with
  | nil =>
      intro m hm
      match m with
      | [] => rfl
      | c :: cs => simp at hm
  | cons x xs ih =>
      intro m hm
      match m with
      | [] => simp at hm
      | c :: cs =>
          simp only [List.length_cons, Nat.succ_inj] at hm
          simp only [List.zipWith, List.zip_cons_cons, List.map_cons,
            ih cs (by omega)]
          cases c <;> simp [embedBit]

theorem is_successful_mask_eq (env : Env) (l : List TextS) :
    is_successful_mask env l = batch_mask env l := by
  unfold is_successful_mask
  rw [embeddings_list_zipWith env l]
  exact zip_zipWith_isSome env l (batch_mask env l)
    (by rw [batch_mask_length, ← batch_mask_length env l])

theorem filterMap_zipWith_embedBit (env : Env) (l : List TextS) :
    ∀ (m : List Bool),
      (List.zipWith (embedBit env) l m).filterMap id =
        maskFilter m (l.map env.embedOne) := by
  induction l with
  | nil =>
      intro m
      simp [maskFilter_nil_right]
  | cons x xs ih =>
      intro m
      match m with
      | [] => rfl
      | c :: cs =>
          simp only [List.zipWith, List.map_cons, maskFilter_cons]
          cases c <;> simp [embedBit, ih cs]

theorem get_embedding_batched_ok (env : Env) (l : List TextS)
    (mask : List Bool) (suc : List Vec)
    (h : get_embedding_batched env l = Except.ok (mask, suc)) :
    mask = is_successful_mask env l ∧
      suc = (embeddings_list env l).filterMap id := by
  unfold get_embedding_batched at h
  by_cases hc : ((embeddings_list env l).filterMap id).isEmpty = true
  · rw [hc] at h
    simp at h
  · rw [Bool.not_eq_true] at hc
    rw [hc] at h
    simp only [Bool.false_eq_true, if_false, Except.ok.injEq,
      Prod.mk.injEq] at h
    exact ⟨h.1.symm, h.2.symm⟩

theorem get_embedding_batched_all_fail (env : Env) (l : List TextS)
    (hb : ∀ b ∈ generate_batches l ITEMS_PER_REQUEST,
      env.batchFails b = true) :
    get_embedding_batched env l = Except.error Err.npStackEmpty := by
  unfold get_embedding_batched
  have hnone : ∀ o ∈ embeddings_list env l, o = none := by
    intro o ho
    unfold embeddings_list at ho
    rw [List.mem_flatMap] at ho
    obtain ⟨b, hbmem, hob⟩ := ho
    unfold encode_texts_to_embeddings at hob
    rw [hb b hbmem] at hob
    simp only [if_true] at hob
    rw [List.mem_map] at hob
    obtain ⟨t, _, ht⟩ := hob
    exact ht.symm
  have hfm : (embeddings_list env l).filterMap id = [] := by
    rw [List.filterMap_eq_nil_iff]
    intro o ho
    rw [hnone o ho]
    rfl
  rw [hfm]
  simp

theorem get_embedding_batched_all_ok (env : Env) (l : List TextS)
    (hl : l ≠ [])
    (hb : ∀ b ∈ generate_batches l ITEMS_PER_REQUEST,
      env.batchFails b = false) :
    get_embedding_batched env l =
      Except.ok (is_successful_mask env l,
        (embeddings_list env l).filterMap id) := by
  unfold get_embedding_batched
  have hbs : generate_batches l ITEMS_PER_REQUEST ≠ [] :=
    chunkList_ne_nil ITEMS_PER_REQUEST ITEMS_PER_REQUEST_ne_zero l hl
  obtain ⟨b0, bs, hbs0⟩ := List.exists_cons_of_ne_nil hbs
  have hb0mem : b0 ∈ generate_batches l ITEMS_PER_REQUEST := by
    rw [hbs0]
    exact List.mem_cons_self b0 bs
  have hb0ne : b0 ≠ [] :=
    chunkList_mem_ne_nil ITEMS_PER_REQUEST l b0 hb0mem
  obtain ⟨t0, ts, ht0⟩ := List.exists_cons_of_ne_nil hb0ne
  have hmem : some (env.embedOne t0) ∈ embeddings_list env l := by
    unfold embeddings_list
    rw [List.mem_flatMap]
    refine ⟨b0, hb0mem, ?_⟩
    unfold encode_texts_to_embeddings
    rw [hb b0 hb0mem]
    simp only [Bool.false_eq_true, if_false]
    rw [List.mem_map]
    exact ⟨t0, by rw [ht0]; exact List.mem_cons_self t0 ts, rfl⟩
  have hne : ((embeddings_list env l).filterMap id).isEmpty = false := by
    rw [List.isEmpty_eq_false_iff_exists_mem]
    exact ⟨env.embedOne t0, List.mem_filterMap.mpr
      ⟨some (env.embedOne t0), hmem, rfl⟩⟩
  rw [hne]
  simp

/- ## gen_index_go lemmas -/

theorem range'_append_sum (s m n : Nat) :
    List.range' s m ++ List.range' (s + m) n = List.range' s (m + n) := by
  have h := List.range'_append s m n 1
  rw [Nat.one_mul] at h
  rw [h, Nat.add_comm n m]

theorem is_successful_mask_length (env : Env) (l : List TextS) :
    (is_successful_mask env l).length = l.length := by
  rw [is_successful_mask_eq, batch_mask_length]

/-- The stacked successful embeddings are exactly the mask-selected
pointwise embeddings of the input chunks. -/
theorem filterMap_embeddings_eq_maskFilter (env : Env) (l : List TextS) :
    (embeddings_list env l).filterMap id =
      maskFilter (is_successful_mask env l) (l.map env.embedOne) := by
  rw [embeddings_list_zipWith env l, filterMap_zipWith_embedBit env l,
    is_successful_mask_eq]

/-- Frame and bounds facts about a successful run of the
_generate_index_data while loop. -/
theorem gen_go_ok (env : Env) (nm : String) :
    ∀ (slices : List (List TextS)) (ib : Nat) (last : Option Nat)
      (st st' : SysState) (nb d : Nat),
      gen_index_go env nm slices ib last st = (st', Except.ok (nb, d)) →
      (∀ s ∈ slices, s.length ≤ MAX_NUM_TEXT_CHUNK_PROCESS) →
      st'.engines = st.engines ∧ st'.documents = st.documents ∧
      st'.chunks = st.chunks ∧ st'.bucket = st.bucket ∧
      st'.nextModelId = st.nextModelId ∧
      st.nextDirId ≤ st'.nextDirId ∧
      nb = ib + (slices.map List.length).sum ∧
      (∃ tr, st'.trace = st.trace ++ tr ∧
        ∀ e ∈ tr, (∃ dd, e = Event.mkTmpDir dd) ∨
          (∃ dd fn rs, e = Event.writeFile dd fn rs ∧
            rs.length ≤ MAX_NUM_TEXT_CHUNK_PROCESS)) ∧
      (∃ new, st'.fileSystem = st.fileSystem ++ new ∧
        (∀ f ∈ new, st.nextDirId ≤ f.dir ∧ f.dir < st'.nextDirId ∧
          f.records.length ≤ MAX_NUM_TEXT_CHUNK_PROCESS ∧
          ∀ r ∈ f.records, ib ≤ r.1 ∧ r.1 < nb) ∧
        (2 ≤ slices.length → ∃ f ∈ new, f.dir < d)) ∧
      ((slices = [] ∧ st' = st ∧ last = some d) ∨
        (st.nextDirId ≤ d ∧ d < st'.nextDirId)) := by
  intro slices
  induction slices with
  | nil =>
      intro ib last st st' nb d h hsl
      match last with
      | none => simp [gen_index_go] at h
      | some d0 =>
          simp only [gen_index_go, Prod.mk.injEq, Except.ok.injEq] at h
          obtain ⟨hst, hnb, hd⟩ := h
          subst hst
          refine ⟨rfl, rfl, rfl, rfl, rfl, Nat.le_refl _, by simp [hnb.symm],
            ⟨[], by simp, by simp⟩, ⟨[], by simp, by simp, by simp⟩, ?_⟩
          exact Or.inl ⟨rfl, rfl, by rw [hd]⟩
  | cons s rest ih =>
      intro ib last st st' nb d h hsl
      rw [gen_index_go] at h
      cases hemb : get_embedding_batched env s with
      | error e =>
          rw [hemb] at h
          simp at h
      | ok p =>
          obtain ⟨mask, ce⟩ := p
          rw [hemb] at h
          dsimp only at h
          have hrec := ih (ib + s.length) (some st.nextDirId) _ st' nb d h
            (fun x hx => hsl x (List.mem_cons_of_mem s hx))
          obtain ⟨he, hdo, hch, hbu, hmo, hdir, hnb, ⟨tr, htr, htrp⟩,
            ⟨new, hfs, hnewp, hnew2⟩, hdchar⟩ := hrec
          dsimp only at he hdo hch hbu hmo hdir htr hfs hnewp hnew2 hdchar
          have hslen : s.length ≤ MAX_NUM_TEXT_CHUNK_PROCESS :=
            hsl s (List.mem_cons_self s rest)
          have hsel_len :
              ((maskFilter mask (List.range' ib s.length)).zip ce).length ≤
                MAX_NUM_TEXT_CHUNK_PROCESS := by
            calc ((maskFilter mask (List.range' ib s.length)).zip ce).length
                ≤ (maskFilter mask (List.range' ib s.length)).length := by
                  rw [List.length_zip]
                  exact Nat.min_le_left _ _
              _ ≤ (List.range' ib s.length).length :=
                  maskFilter_length_le _ _
              _ = s.length := by rw [List.length_range']
              _ ≤ MAX_NUM_TEXT_CHUNK_PROCESS := hslen
          have hsel_mem : ∀ r ∈ (maskFilter mask
              (List.range' ib s.length)).zip ce,
              ib ≤ r.1 ∧ r.1 < ib + s.length := by
            intro r hr
            have h1 : r.1 ∈ maskFilter mask (List.range' ib s.length) :=
              (List.of_mem_zip hr).1
            have h2 : r.1 ∈ List.range' ib s.length :=
              maskFilter_mem _ _ _ h1
            rw [List.mem_range'_1] at h2
            exact h2
          have hnb' : nb = ib + ((s :: rest).map List.length).sum := by
            rw [hnb]
            simp only [List.map_cons, List.sum_cons]
            omega
          have hnb_ge : ib + s.length ≤ nb := by
            rw [hnb]
            omega
          refine ⟨by rw [he], by rw [hdo], by rw [hch], by rw [hbu],
            by rw [hmo], by omega, hnb', ?_, ?_, ?_⟩
          · refine ⟨Event.mkTmpDir st.nextDirId ::
              Event.writeFile st.nextDirId
                (index_file_name nm ib)
                ((maskFilter mask (List.range' ib s.length)).zip ce) :: tr,
              ?_, ?_⟩
            · rw [htr]
              simp
            · intro e he'
              rcases List.mem_cons.mp he' with he' | he'
              · exact Or.inl ⟨st.nextDirId, he'⟩
              rcases List.mem_cons.mp he' with he' | he'
              · exact Or.inr ⟨st.nextDirId, index_file_name nm ib,
                  (maskFilter mask (List.range' ib s.length)).zip ce,
                  he', hsel_len⟩
              · exact htrp e he'
          · refine ⟨⟨st.nextDirId, index_file_name nm ib,
              (maskFilter mask (List.range' ib s.length)).zip ce⟩ :: new,
              ?_, ?_, ?_⟩
            · rw [hfs]
              simp
            · intro f hf
              rcases List.mem_cons.mp hf with hf | hf
              · subst hf
                refine ⟨Nat.le_refl _, ?_, hsel_len, ?_⟩
                · show st.nextDirId < st'.nextDirId
                  omega
                · intro r hr
                  have := hsel_mem r hr
                  omega
              · have hp := hnewp f hf
                have hp1 : st.nextDirId + 1 ≤ f.dir := hp.1
                refine ⟨by omega, hp.2.1, hp.2.2.1, ?_⟩
                intro r hr
                have := hp.2.2.2 r hr
                omega
            · intro hlen2
              rcases hdchar with ⟨hrest, hst', hlast⟩ | ⟨hge, hlt⟩
              · subst hrest
                simp at hlen2
              · refine ⟨_, List.mem_cons_self _ _, ?_⟩
                have hge' : st.nextDirId + 1 ≤ d := hge
                simp only
                omega
          · rcases hdchar with ⟨hrest, hst', hlast⟩ | ⟨hge, hlt⟩
            · have hd0 : d = st.nextDirId := by
                injection hlast with h'
                omega
              subst hd0
              refine Or.inr ⟨Nat.le_refl _, ?_⟩
              rw [hst']
              simp
            · refine Or.inr ⟨?_, hlt⟩
              have hge' : st.nextDirId + 1 ≤ d := hge
              omega

/-- Exact contents of the files written by a successful run of the
_generate_index_data while loop: the concatenated records are the
mask-selected (id, vector) pairs, ids counted from index_base by position. -/
theorem gen_go_records (env : Env) (nm : String) :
    ∀ (slices : List (List TextS)) (ib : Nat) (last : Option Nat)
      (st st' : SysState) (nb d : Nat),
      gen_index_go env nm slices ib last st = (st', Except.ok (nb, d)) →
      ∃ new, st'.fileSystem = st.fileSystem ++ new ∧
        new.flatMap (fun f => f.records) =
          maskFilter (slices.flatMap (is_successful_mask env))
            ((List.range' ib ((slices.map List.length).sum)).zip
              (slices.flatten.map env.embedOne)) := by
  intro slices
  induction slices with
  | nil =>
      intro ib last st st' nb d h
      match last with
      | none => simp [gen_index_go] at h
      | some d0 =>
          simp only [gen_index_go, Prod.mk.injEq, Except.ok.injEq] at h
          obtain ⟨hst, hnb, hd⟩ := h
          subst hst
          exact ⟨[], by simp, by simp [maskFilter_nil_left]⟩
  | cons s rest ih =>
      intro ib last st st' nb d h
      rw [gen_index_go] at h
      cases hemb : get_embedding_batched env s with
      | error e =>
          rw [hemb] at h
          simp at h
      | ok p =>
          obtain ⟨mask, ce⟩ := p
          rw [hemb] at h
          dsimp only at h
          obtain ⟨hm, hc⟩ := get_embedding_batched_ok env s mask ce hemb
          obtain ⟨new, hfs, hrec⟩ :=
            ih (ib + s.length) (some st.nextDirId) _ st' nb d h
          dsimp only at hfs
          refine ⟨⟨st.nextDirId, index_file_name nm ib,
            (maskFilter mask (List.range' ib s.length)).zip ce⟩ :: new,
            ?_, ?_⟩
          · rw [hfs]
            simp
          · have hce : ce = maskFilter mask (s.map env.embedOne) := by
              rw [hc, filterMap_embeddings_eq_maskFilter, ← hm]
            have hsel : (maskFilter mask (List.range' ib s.length)).zip ce =
                maskFilter mask
                  ((List.range' ib s.length).zip (s.map env.embedOne)) := by
              rw [hce, maskFilter_zip]
            have hmlen : mask.length = s.length := by
              rw [hm, is_successful_mask_length]
            have hsum : ((s :: rest).map List.length).sum =
                s.length + ((rest.map List.length).sum) := by
              simp
            have hrange : List.range' ib (((s :: rest).map List.length).sum) =
                List.range' ib s.length ++
                  List.range' (ib + s.length) ((rest.map List.length).sum) := by
              rw [hsum, range'_append_sum]
            have hflat : ((s :: rest).flatten).map env.embedOne =
                s.map env.embedOne ++ (rest.flatten).map env.embedOne := by
              simp
            have hzip :
                (List.range' ib (((s :: rest).map List.length).sum)).zip
                  (((s :: rest).flatten).map env.embedOne) =
                (List.range' ib s.length).zip (s.map env.embedOne) ++
                  (List.range' (ib + s.length)
                    ((rest.map List.length).sum)).zip
                    ((rest.flatten).map env.embedOne) := by
              rw [hrange, hflat]
              exact List.zip_append (by simp)
            have hmask : (s :: rest).flatMap (is_successful_mask env) =
                is_successful_mask env s ++
                  rest.flatMap (is_successful_mask env) := by
              simp
            rw [List.flatMap_cons]
            dsimp only
            rw [hsel, hrec, hzip, hmask, ← hm]
            rw [maskFilter_append]
            rw [hmlen, List.length_zip, List.length_range',
              List.length_map]
            simp

/-- Claim C7 core: on a successful _generate_index_data run the returned
index_base advances by the full chunk count, and the records across all
written files are exactly the mask-selected pairs (index_base + position,
vector), so failed positions are skipped without shifting surviving ids,
and ids are strictly increasing. -/
theorem generate_index_data_ids (env : Env) (dn : String)
    (tc : List TextS) (ib : Nat) (st st' : SysState) (nb d : Nat)
    (h : generate_index_data env dn tc ib st = (st', Except.ok (nb, d))) :
    nb = ib + tc.length ∧
    ∃ new, st'.fileSystem = st.fileSystem ++ new ∧
      new.flatMap (fun f => f.records) =
        maskFilter (docMask env tc)
          ((List.range' ib tc.length).zip (tc.map env.embedOne)) ∧
      ((new.flatMap (fun f => f.records)).map Prod.fst).Pairwise
        (fun a b => a < b) := by
  unfold generate_index_data at h
  have hok := gen_go_ok env dn _ ib none st st' nb d h
    (chunkList_mem_length_le MAX_NUM_TEXT_CHUNK_PROCESS tc)
  have hsum : (((chunkList MAX_NUM_TEXT_CHUNK_PROCESS tc).map
      List.length).sum) = tc.length :=
    chunkList_sum_lengths MAX_NUM_TEXT_CHUNK_PROCESS MAX_CHUNK_ne_zero tc
  have hnb : nb = ib + tc.length := by
    have := hok.2.2.2.2.2.2.1
    rw [hsum] at this
    exact this
  obtain ⟨new, hfs, hrecs⟩ := gen_go_records env dn _ ib none st st' nb d h
  rw [hsum] at hrecs
  rw [chunkList_flatten MAX_NUM_TEXT_CHUNK_PROCESS MAX_CHUNK_ne_zero tc]
    at hrecs
  refine ⟨hnb, new, hfs, hrecs, ?_⟩
  rw [hrecs]
  have hsub1 : List.Sublist
      (maskFilter (docMask env tc)
        ((List.range' ib tc.length).zip (tc.map env.embedOne)))
      ((List.range' ib tc.length).zip (tc.map env.embedOne)) :=
    maskFilter_sublist _ _
  have hsub2 : List.Sublist
      ((maskFilter (docMask env tc)
        ((List.range' ib tc.length).zip (tc.map env.embedOne))).map
          Prod.fst)
      (((List.range' ib tc.length).zip (tc.map env.embedOne)).map
        Prod.fst) := hsub1.map Prod.fst
  have hfst : (((List.range' ib tc.length).zip
      (tc.map env.embedOne)).map Prod.fst) = List.range' ib tc.length := by
    apply List.map_fst_zip
    simp
  rw [hfst] at hsub2
  exact (List.pairwise_lt_range' ib tc.length).sublist hsub2

/- ## save_chunks_go and per-document lemmas -/

/-- Effect of the chunk-save loop: every field but chunks, nextModelId and
trace is untouched; one chunk record is appended per text chunk, with
consecutive indices starting at idx. -/
theorem save_chunks_go_ok (qid docId : Nat) :
    ∀ (l : List TextS) (idx : Nat) (st : SysState),
      (save_chunks_go qid docId idx l st).engines = st.engines ∧
      (save_chunks_go qid docId idx l st).documents = st.documents ∧
      (save_chunks_go qid docId idx l st).fileSystem = st.fileSystem ∧
      (save_chunks_go qid docId idx l st).bucket = st.bucket ∧
      (save_chunks_go qid docId idx l st).nextDirId = st.nextDirId ∧
      (∃ newC, (save_chunks_go qid docId idx l st).chunks =
          st.chunks ++ newC ∧
        (∀ i, idx ≤ i → i < idx + l.length → ∃ c ∈ newC,
          c.index = i ∧ c.queryEngineId = qid ∧
            c.queryDocumentId = docId)) ∧
      (∃ tr, (save_chunks_go qid docId idx l st).trace = st.trace ++ tr ∧
        ∀ e ∈ tr, ∃ c, e = Event.saveChunk c) := by
  intro l
  induction l with
  | nil =>
      intro idx st
      refine ⟨rfl, rfl, rfl, rfl, rfl, ⟨[], by simp [save_chunks_go], ?_⟩,
        ⟨[], by simp [save_chunks_go], by simp⟩⟩
      intro i h1 h2
      simp at h2
      omega
  | cons t rest ih =>
      intro idx st
      have hrec := ih (idx + 1)
        { st with
          chunks := st.chunks ++
            [⟨st.nextModelId, qid, docId, idx, t⟩],
          nextModelId := st.nextModelId + 1,
          trace := st.trace ++
            [Event.saveChunk ⟨st.nextModelId, qid, docId, idx, t⟩] }
      obtain ⟨he, hdo, hfs, hbu, hdir, ⟨newC, hch, hcov⟩, ⟨tr, htr, htrp⟩⟩
        := hrec
      dsimp only at he hdo hfs hbu hdir hch htr
      show (save_chunks_go qid docId idx (t :: rest) st).engines =
          st.engines ∧ _
      rw [save_chunks_go]
      refine ⟨he, hdo, hfs, hbu, hdir,
        ⟨⟨st.nextModelId, qid, docId, idx, t⟩ :: newC, ?_, ?_⟩,
        ⟨Event.saveChunk ⟨st.nextModelId, qid, docId, idx, t⟩ :: tr,
          ?_, ?_⟩⟩
      · rw [hch]
        simp
      · intro i h1 h2
        by_cases hi : i = idx
        · subst hi
          exact ⟨⟨st.nextModelId, qid, docId, i, t⟩,
            List.mem_cons_self _ _, rfl, rfl, rfl⟩
        · have h1' : idx + 1 ≤ i := by omega
          have h2' : i < (idx + 1) + rest.length := by
            simp only [List.length_cons] at h2
            omega
          obtain ⟨c, hcmem, hcp⟩ := hcov i h1' h2'
          exact ⟨c, List.mem_cons_of_mem _ hcmem, hcp⟩
      · rw [htr]
        simp
      · intro e he'
        rcases List.mem_cons.mp he' with he' | he'
        · exact ⟨⟨st.nextModelId, qid, docId, idx, t⟩, he'⟩
        · exact htrp e he'


/- ## upload_and_cleanup / save_query_document projection lemmas -/

theorem upload_and_cleanup_engines (d : Nat) (st : SysState) :
    (upload_and_cleanup d st).engines = st.engines := rfl

theorem upload_and_cleanup_documents (d : Nat) (st : SysState) :
    (upload_and_cleanup d st).documents = st.documents := rfl

theorem upload_and_cleanup_chunks (d : Nat) (st : SysState) :
    (upload_and_cleanup d st).chunks = st.chunks := rfl

theorem upload_and_cleanup_nextModelId (d : Nat) (st : SysState) :
    (upload_and_cleanup d st).nextModelId = st.nextModelId := rfl

theorem upload_and_cleanup_nextDirId (d : Nat) (st : SysState) :
    (upload_and_cleanup d st).nextDirId = st.nextDirId := rfl

theorem upload_and_cleanup_bucket (d : Nat) (st : SysState) :
    (upload_and_cleanup d st).bucket = st.bucket ++
      (st.fileSystem.filter (fun f => f.dir == d)).map
        (fun f => (f.fname, f.records)) := rfl

theorem upload_and_cleanup_fileSystem (d : Nat) (st : SysState) :
    (upload_and_cleanup d st).fileSystem =
      st.fileSystem.filter (fun f => !(f.dir == d)) := rfl

theorem upload_and_cleanup_trace (d : Nat) (st : SysState) :
    (upload_and_cleanup d st).trace =
      (st.trace ++ (st.fileSystem.filter (fun f => f.dir == d)).map
        (fun f => Event.uploadFile f.dir f.fname f.records)) ++
        [Event.rmTree d] := rfl

theorem save_query_document_engines (q : QueryDocumentRec)
    (st : SysState) : (save_query_document q st).engines = st.engines := rfl

theorem save_query_document_documents (q : QueryDocumentRec)
    (st : SysState) :
    (save_query_document q st).documents = st.documents ++ [q] := rfl

theorem save_query_document_chunks (q : QueryDocumentRec)
    (st : SysState) : (save_query_document q st).chunks = st.chunks := rfl

theorem save_query_document_bucket (q : QueryDocumentRec)
    (st : SysState) : (save_query_document q st).bucket = st.bucket := rfl

theorem save_query_document_fileSystem (q : QueryDocumentRec)
    (st : SysState) :
    (save_query_document q st).fileSystem = st.fileSystem := rfl

theorem save_query_document_nextDirId (q : QueryDocumentRec)
    (st : SysState) :
    (save_query_document q st).nextDirId = st.nextDirId := rfl

theorem save_query_document_trace (q : QueryDocumentRec)
    (st : SysState) :
    (save_query_document q st).trace =
      st.trace ++ [Event.saveDoc q] := rfl

/-- Facts about one successfully indexed-and-persisted document: the
QueryDocument record spans exactly [index_base, index_base + chunk count),
a chunk record is persisted for every position in that range, every
bucket object uploaded for the document only holds ids inside the range,
and the QueryDocument save event comes after all file activity with only
chunk saves behind it. -/
theorem index_and_persist_facts (env : Env) (qid : Nat) (qname : String)
    (dn du : String) (tc : List TextS) (ib : Nat) (st st' : SysState)
    (q : QueryDocumentRec) (nb : Nat)
    (h : index_and_persist_doc env qid qname dn du tc ib st =
      (st', Except.ok (DocStepResult.processed q nb)))
    (hfsinv : ∀ f ∈ st.fileSystem, f.dir < st.nextDirId) :
    q.queryEngineId = qid ∧ q.queryEngine = qname ∧ q.docUrl = du ∧
    q.indexStart = ib ∧ q.indexEnd = nb ∧ nb = ib + tc.length ∧
    st'.engines = st.engines ∧
    st'.documents = st.documents ++ [q] ∧
    (∃ newC, st'.chunks = st.chunks ++ newC ∧
      ∀ i, ib ≤ i → i < nb → ∃ c ∈ newC, c.index = i ∧
        c.queryEngineId = qid ∧ c.queryDocumentId = q.id) ∧
    (∃ newB, st'.bucket = st.bucket ++ newB ∧
      ∀ p ∈ newB, ∀ r ∈ p.2, ib ≤ r.1 ∧ r.1 < nb) ∧
    (∀ f ∈ st'.fileSystem, f.dir < st'.nextDirId) ∧
    st.nextDirId ≤ st'.nextDirId ∧
    (∃ A B, st'.trace = st.trace ++ A ++ Event.saveDoc q :: B ∧
      ∀ e ∈ B, isSaveChunk e = true) := by
  unfold index_and_persist_doc at h
  cases hgen : generate_index_data env dn tc ib st with
  | mk st1 r =>
      rw [hgen] at h
      cases r with
      | error e => simp at h
      | ok pr =>
          obtain ⟨nb0, d⟩ := pr
          dsimp only at h
          rw [Prod.mk.injEq] at h
          obtain ⟨hstate, hres⟩ := h
          rw [Except.ok.injEq] at hres
          injection hres with hq hnbe
          subst hq
          subst hnbe
          subst hstate
          unfold generate_index_data at hgen
          have hok := gen_go_ok env dn _ ib none st st1 nb0 d hgen
            (chunkList_mem_length_le MAX_NUM_TEXT_CHUNK_PROCESS tc)
          obtain ⟨he1, hdo1, hch1, hbu1, hmo1, hdir1, hnb1,
            ⟨trG, htrG, htrGp⟩, ⟨new, hfs1, hnewp, hnew2⟩, hdchar⟩ := hok
          have hd : st.nextDirId ≤ d ∧ d < st1.nextDirId := by
            rcases hdchar with ⟨hs, hst, hlast⟩ | hd
            · cases hlast
            · exact hd
          have hnb0 : nb0 = ib + tc.length := by
            rw [hnb1, chunkList_sum_lengths MAX_NUM_TEXT_CHUNK_PROCESS
              MAX_CHUNK_ne_zero tc]
          have hsave := save_chunks_go_ok qid
            (upload_and_cleanup d st1).nextModelId tc ib
            (save_query_document
              { id := (upload_and_cleanup d st1).nextModelId,
                queryEngineId := qid, queryEngine := qname,
                docUrl := du, indexStart := ib, indexEnd := nb0 }
              (upload_and_cleanup d st1))
          obtain ⟨heS, hdoS, hfsS, hbuS, hdirS, ⟨newC, hchS, hcovS⟩,
            ⟨trC, htrS, htrSp⟩⟩ := hsave
          refine ⟨rfl, rfl, rfl, rfl, rfl, hnb0, ?_, ?_, ?_, ?_, ?_, ?_, ?_⟩
          · rw [heS, save_query_document_engines,
              upload_and_cleanup_engines, he1]
          · rw [hdoS, save_query_document_documents,
              upload_and_cleanup_documents, hdo1]
          · refine ⟨newC, ?_, ?_⟩
            · rw [hchS, save_query_document_chunks,
                upload_and_cleanup_chunks, hch1]
            · intro i h1 h2
              exact hcovS i h1 (by omega)
          · refine ⟨(st1.fileSystem.filter (fun f => f.dir == d)).map
              (fun f => (f.fname, f.records)), ?_, ?_⟩
            · rw [hbuS, save_query_document_bucket,
                upload_and_cleanup_bucket, hbu1]
            · intro p hp r hr
              rw [List.mem_map] at hp
              obtain ⟨f, hf, hpf⟩ := hp
              rw [List.mem_filter] at hf
              obtain ⟨hfmem, hfd⟩ := hf
              rw [beq_iff_eq] at hfd
              rw [hfs1] at hfmem
              rcases List.mem_append.mp hfmem with hold | hnew
              · have := hfsinv f hold
                omega
              · have hb := (hnewp f hnew).2.2.2 r (by
                  rw [← hpf] at hr
                  exact hr)
                exact hb
          · intro f hf
            rw [hfsS, save_query_document_fileSystem,
              upload_and_cleanup_fileSystem] at hf
            rw [hdirS, save_query_document_nextDirId,
              upload_and_cleanup_nextDirId]
            have hfmem : f ∈ st1.fileSystem :=
              List.mem_of_mem_filter hf
            rw [hfs1] at hfmem
            rcases List.mem_append.mp hfmem with hold | hnew
            · have := hfsinv f hold
              omega
            · exact (hnewp f hnew).2.1
          · rw [hdirS, save_query_document_nextDirId,
              upload_and_cleanup_nextDirId]
            exact hdir1
          · refine ⟨trG ++ ((st1.fileSystem.filter
              (fun f => f.dir == d)).map
              (fun f => Event.uploadFile f.dir f.fname f.records)) ++
              [Event.rmTree d], trC, ?_, ?_⟩
            · rw [htrS, save_query_document_trace,
                upload_and_cleanup_trace, htrG]
              simp [List.append_assoc]
            · intro e he'
              obtain ⟨c, hc⟩ := htrSp e he'
              rw [hc]
              rfl

/-- A successful index_and_persist_doc always reports a processed
document. -/
theorem index_and_persist_ok_shape (env : Env) (qid : Nat)
    (qname dn du : String) (tc : List TextS) (ib : Nat)
    (st st1 : SysState) (res : DocStepResult)
    (h : index_and_persist_doc env qid qname dn du tc ib st =
      (st1, Except.ok res)) :
    ∃ q nb, res = DocStepResult.processed q nb := by
  unfold index_and_persist_doc at h
  cases hgen : generate_index_data env dn tc ib st with
  | mk stG rG =>
      rw [hgen] at h
      cases rG with
      | error e => simp at h
      | ok pr =>
          obtain ⟨nb0, d⟩ := pr
          dsimp only at h
          rw [Prod.mk.injEq] at h
          rw [Except.ok.injEq] at h
          exact ⟨_, _, h.2.symm⟩

/-- Invariant of the whole _process_documents loop on the success path:
the processed documents are appended with contiguous ranges starting at
the running index_base, each one fully backed by persisted chunk records,
and all uploaded ids fall inside some processed document's range. -/
theorem process_go_facts (env : Env) (qid : Nat) (qname : String) :
    ∀ (docs : List DocInput) (ib : Nat) (dp0 : List QueryDocumentRec)
      (dnp0 : List String) (st st' : SysState)
      (dp : List QueryDocumentRec) (dnp : List String),
      process_docs_go env qid qname docs ib dp0 dnp0 st =
        (st', Except.ok (dp, dnp)) →
      (∀ f ∈ st.fileSystem, f.dir < st.nextDirId) →
      ∃ tail, dp = dp0 ++ tail ∧
        contiguousFromB ib tail = true ∧
        st'.documents = st.documents ++ tail ∧
        (∀ x ∈ tail, x.queryEngineId = qid) ∧
        st'.engines = st.engines ∧
        (∃ newC, st'.chunks = st.chunks ++ newC ∧
          ∀ x ∈ tail, ∀ i, x.indexStart ≤ i → i < x.indexEnd →
            ∃ c ∈ newC, c.index = i ∧ c.queryEngineId = qid ∧
              c.queryDocumentId = x.id) ∧
        (∃ newB, st'.bucket = st.bucket ++ newB ∧
          ∀ p ∈ newB, ∀ r ∈ p.2, ∃ x ∈ tail,
            x.indexStart ≤ r.1 ∧ r.1 < x.indexEnd) ∧
        (∀ f ∈ st'.fileSystem, f.dir < st'.nextDirId) := by
  intro docs
  induction docs with
  | nil =>
      intro ib dp0 dnp0 st st' dp dnp h hfsinv
      rw [process_docs_go, Prod.mk.injEq, Except.ok.injEq,
        Prod.mk.injEq] at h
      obtain ⟨hst, hdp, hdnp⟩ := h
      subst hst
      refine ⟨[], by rw [← hdp]; simp, rfl, by simp, by simp, rfl,
        ⟨[], by simp, by simp⟩, ⟨[], by simp, by simp⟩, hfsinv⟩
  | cons doc rest ih =>
      intro ib dp0 dnp0 st st' dp dnp h hfsinv
      rw [process_docs_go] at h
      cases hr : doc.read with
      | readError =>
          have h1 : process_one_doc env qid qname doc ib st =
              (st, Except.ok DocStepResult.notProcessed) := by
            unfold process_one_doc
            rw [hr]
          rw [h1] at h
          dsimp only at h
          exact ih ib dp0 (dnp0 ++ [doc.url]) st st' dp dnp h hfsinv
      | noContent =>
          have h1 : process_one_doc env qid qname doc ib st =
              (st, Except.ok DocStepResult.notProcessed) := by
            unfold process_one_doc
            rw [hr]
          rw [h1] at h
          dsimp only at h
          exact ih ib dp0 (dnp0 ++ [doc.url]) st st' dp dnp h hfsinv
      | sections ts =>
          have h1 : process_one_doc env qid qname doc ib st =
              index_and_persist_doc env qid qname doc.name doc.url
                (ts.flatMap (split_text CHUNK_SIZE)) ib st := by
            unfold process_one_doc
            rw [hr]
          rw [h1] at h
          cases hip : index_and_persist_doc env qid qname doc.name doc.url
              (ts.flatMap (split_text CHUNK_SIZE)) ib st with
          | mk stA rA =>
              rw [hip] at h
              cases rA with
              | error e => simp at h
              | ok res =>
                  obtain ⟨q, nb, hres⟩ := index_and_persist_ok_shape env
                    qid qname doc.name doc.url
                    (ts.flatMap (split_text CHUNK_SIZE)) ib st stA res hip
                  rw [hres] at h hip
                  dsimp only at h
                  have hfacts := index_and_persist_facts env qid qname
                    doc.name doc.url (ts.flatMap (split_text CHUNK_SIZE))
                    ib st stA q nb hip hfsinv
                  obtain ⟨hqe, hqn, hqu, hqs, hqnd, hnbl, heA, hdoA,
                    ⟨newC, hchA, hcovA⟩, ⟨newB, hbuA, hidA⟩, hfsA,
                    hdirA, _⟩ := hfacts
                  obtain ⟨tail', hdp', hcont', hdo', hqid', he',
                    ⟨newC', hch', hcov'⟩, ⟨newB', hbu', hid'⟩, hfs'⟩ :=
                    ih nb (dp0 ++ [q]) dnp0 stA st' dp dnp h hfsA
                  refine ⟨q :: tail', ?_, ?_, ?_, ?_, ?_, ?_, ?_, ?_⟩
                  · rw [hdp']
                    simp
                  · rw [contiguousFromB]
                    have h1' : (q.indexStart == ib) = true := by
                      rw [hqs]
                      simp
                    have h2' : decide (q.indexStart ≤ q.indexEnd) = true := by
                      rw [hqs, hqnd, hnbl]
                      simp
                    rw [h1', h2', hqnd, hcont']
                    rfl
                  · rw [hdo', hdoA]
                    simp
                  · intro x hx
                    rcases List.mem_cons.mp hx with hx | hx
                    · rw [hx]
                      exact hqe
                    · exact hqid' x hx
                  · rw [he', heA]
                  · refine ⟨newC ++ newC', ?_, ?_⟩
                    · rw [hch', hchA]
                      simp
                    · intro x hx i hi1 hi2
                      rcases List.mem_cons.mp hx with hx | hx
                      · subst hx
                        rw [hqs] at hi1
                        rw [hqnd] at hi2
                        obtain ⟨c, hcm, hcp⟩ := hcovA i hi1 hi2
                        exact ⟨c, List.mem_append_left newC' hcm, hcp⟩
                      · obtain ⟨c, hcm, hcp⟩ := hcov' x hx i hi1 hi2
                        exact ⟨c, List.mem_append_right newC hcm, hcp⟩
                  · refine ⟨newB ++ newB', ?_, ?_⟩
                    · rw [hbu', hbuA]
                      simp
                    · intro p hp r hrr
                      rcases List.mem_append.mp hp with hp | hp
                      · have := hidA p hp r hrr
                        exact ⟨q, List.mem_cons_self q tail',
                          by rw [hqs]; exact this.1,
                          by rw [hqnd]; exact this.2⟩
                      · obtain ⟨x, hxm, hxp⟩ := hid' p hp r hrr
                        exact ⟨x, List.mem_cons_of_mem q hxm, hxp⟩
                  · exact hfs'

/- ## Engines are never touched by document processing -/

theorem gen_go_engines (env : Env) (nm : String) :
    ∀ (slices : List (List TextS)) (ib : Nat) (last : Option Nat)
      (st : SysState),
      ((gen_index_go env nm slices ib last st).1).engines = st.engines := by
  intro slices
  induction slices with
  | nil =>
      intro ib last st
      match last with
      | none => rfl
      | some d0 => rfl
  | cons s rest ih =>
      intro ib last st
      rw [gen_index_go]
      cases hemb : get_embedding_batched env s with
      | error e => rfl
      | ok p =>
          obtain ⟨mask, ce⟩ := p
          dsimp only
          rw [ih]

theorem index_and_persist_engines (env : Env) (qid : Nat)
    (qname dn du : String) (tc : List TextS) (ib : Nat) (st : SysState) :
    ((index_and_persist_doc env qid qname dn du tc ib st).1).engines =
      st.engines := by
  unfold index_and_persist_doc
  cases hgen : generate_index_data env dn tc ib st with
  | mk st1 r =>
      have hg : st1.engines = st.engines := by
        have := gen_go_engines env dn
          (chunkList MAX_NUM_TEXT_CHUNK_PROCESS tc) ib none st
        unfold generate_index_data at hgen
        rw [hgen] at this
        exact this
      cases r with
      | error e => exact hg
      | ok pr =>
          obtain ⟨nb0, d⟩ := pr
          dsimp only
          have hs := (save_chunks_go_ok qid
            (upload_and_cleanup d st1).nextModelId tc ib
            (save_query_document
              { id := (upload_and_cleanup d st1).nextModelId,
                queryEngineId := qid, queryEngine := qname, docUrl := du,
                indexStart := ib, indexEnd := nb0 }
              (upload_and_cleanup d st1))).1
          rw [hs, save_query_document_engines, upload_and_cleanup_engines,
            hg]

theorem process_one_doc_engines (env : Env) (qid : Nat) (qname : String)
    (doc : DocInput) (ib : Nat) (st : SysState) :
    ((process_one_doc env qid qname doc ib st).1).engines = st.engines := by
  unfold process_one_doc
  cases doc.read with
  | readError => rfl
  | noContent => rfl
  | sections ts => exact index_and_persist_engines env qid qname _ _ _ ib st

theorem process_go_engines (env : Env) (qid : Nat) (qname : String) :
    ∀ (docs : List DocInput) (ib : Nat) (dp0 : List QueryDocumentRec)
      (dnp0 : List String) (st : SysState),
      ((process_docs_go env qid qname docs ib dp0 dnp0 st).1).engines =
        st.engines := by
  intro docs
  induction docs with
  | nil => intro ib dp0 dnp0 st; rfl
  | cons doc rest ih =>
      intro ib dp0 dnp0 st
      rw [process_docs_go]
      cases hp : process_one_doc env qid qname doc ib st with
      | mk st1 r =>
          have h1 : st1.engines = st.engines := by
            have := process_one_doc_engines env qid qname doc ib st
            rw [hp] at this
            exact this
          cases r with
          | error e => exact h1
          | ok res =>
              cases res with
              | notProcessed =>
                  dsimp only
                  rw [ih, h1]
              | processed q nb =>
                  dsimp only
                  rw [ih, h1]

theorem process_documents_engines (env : Env) (qid : Nat) (qname : String)
    (st : SysState) :
    ((process_documents env qid qname st).1).engines = st.engines := by
  unfold process_documents
  by_cases hd : env.docs.isEmpty
  · rw [if_pos hd]
  · rw [if_neg hd]
    exact process_go_engines env qid qname env.docs 0 [] [] st

/- ## contiguousFromB consequences -/

theorem contiguousFromB_cons (b : Nat) (x : QueryDocumentRec)
    (l : List QueryDocumentRec)
    (h : contiguousFromB b (x :: l) = true) :
    x.indexStart = b ∧ x.indexStart ≤ x.indexEnd ∧
      contiguousFromB x.indexEnd l = true := by
  rw [contiguousFromB] at h
  rw [Bool.and_eq_true, Bool.and_eq_true] at h
  refine ⟨by simpa using h.1.1, by simpa using h.1.2, h.2⟩

theorem contiguousFromB_le (b : Nat) (l : List QueryDocumentRec)
    (h : contiguousFromB b l = true) :
    ∀ x ∈ l, b ≤ x.indexStart := by
  induction l generalizing b with
  | nil => intro x hx; simp at hx
  | cons y rest ih =>
      intro x hx
      obtain ⟨h1, h2, h3⟩ := contiguousFromB_cons b y rest h
      rcases List.mem_cons.mp hx with hx | hx
      · rw [hx, h1]
      · have := ih y.indexEnd h3 x hx
        omega

theorem contiguousFromB_pairwise (b : Nat) (l : List QueryDocumentRec)
    (h : contiguousFromB b l = true) :
    l.Pairwise (fun a c => a.indexEnd ≤ c.indexStart) := by
  induction l generalizing b with
  | nil => exact List.Pairwise.nil
  | cons y rest ih =>
      obtain ⟨h1, h2, h3⟩ := contiguousFromB_cons b y rest h
      exact List.Pairwise.cons (contiguousFromB_le y.indexEnd rest h3)
        (ih y.indexEnd h3)

/- ## find_by_name lemmas -/

theorem find_by_name_none_iff (st : SysState) (name : String) :
    find_by_name st name = none ↔
      ∀ e ∈ st.engines, ¬(e.name == name) = true := by
  unfold find_by_name
  exact List.find?_eq_none

/-- The engine saved by query_engine_build is found by the second lookup
inside build_doc_index. -/
theorem find_by_name_after_save (st : SysState) (name : String)
    (q : QueryEngineRec) (hq : q.name = name)
    (hnone : find_by_name st name = none) :
    (st.engines ++ [q]).find? (fun e => e.name == name) = some q := by
  unfold find_by_name at hnone
  rw [List.find?_append, hnone]
  simp [hq]


/- ## engine_saved_state projection lemmas -/

theorem engine_saved_state_engines (qn uid : String) (pub : Bool)
    (st : SysState) : (engine_saved_state qn uid pub st).engines =
      st.engines ++
        [{ id := st.nextModelId, name := qn, createdBy := uid,
           llmType := DEFAULT_QUERY_EMBEDDING_MODEL,
           isPublic := pub }] := rfl

theorem engine_saved_state_documents (qn uid : String) (pub : Bool)
    (st : SysState) :
    (engine_saved_state qn uid pub st).documents = st.documents := rfl

theorem engine_saved_state_chunks (qn uid : String) (pub : Bool)
    (st : SysState) :
    (engine_saved_state qn uid pub st).chunks = st.chunks := rfl

theorem engine_saved_state_fileSystem (qn uid : String) (pub : Bool)
    (st : SysState) :
    (engine_saved_state qn uid pub st).fileSystem = st.fileSystem := rfl

theorem engine_saved_state_bucket (qn uid : String) (pub : Bool)
    (st : SysState) :
    (engine_saved_state qn uid pub st).bucket = st.bucket := rfl

theorem engine_saved_state_nextDirId (qn uid : String) (pub : Bool)
    (st : SysState) :
    (engine_saved_state qn uid pub st).nextDirId = st.nextDirId := rfl

theorem engine_saved_state_find (qn uid : String) (pub : Bool)
    (st : SysState) (hnone : find_by_name st qn = none) :
    find_by_name (engine_saved_state qn uid pub st) qn =
      some { id := st.nextModelId, name := qn, createdBy := uid,
             llmType := DEFAULT_QUERY_EMBEDDING_MODEL, isPublic := pub } :=
  find_by_name_after_save st qn _ rfl hnone

/- ## Top-level success facts -/

/-- All facts established by a successful query_engine_build run: the list
of processed documents has contiguous disjoint ranges from 0 and is
exactly the batch of records appended to the document collection, every
chunk position of every processed document has a persisted DocumentChunk
record, and every id uploaded to the staging bucket falls inside a
processed document's range. -/
theorem query_engine_build_facts (env : Env) (qname uid : String)
    (pub : Bool) (st st' : SysState) (qid : Nat)
    (dp : List QueryDocumentRec) (dnp : List String)
    (h : query_engine_build env qname uid pub st =
      (st', Except.ok (qid, dp, dnp)))
    (hfsinv : ∀ f ∈ st.fileSystem, f.dir < st.nextDirId) :
    qid = st.nextModelId ∧
    contiguousFromB 0 dp = true ∧
    (∀ x ∈ dp, x.queryEngineId = qid) ∧
    st'.documents = st.documents ++ dp ∧
    (∃ newC, st'.chunks = st.chunks ++ newC ∧
      ∀ x ∈ dp, ∀ i, x.indexStart ≤ i → i < x.indexEnd →
        ∃ c ∈ newC, c.index = i ∧ c.queryEngineId = qid ∧
          c.queryDocumentId = x.id) ∧
    (∃ newB, st'.bucket = st.bucket ++ newB ∧
      ∀ p ∈ newB, ∀ r ∈ p.2, ∃ x ∈ dp,
        x.indexStart ≤ r.1 ∧ r.1 < x.indexEnd) := by
  unfold query_engine_build at h
  cases hfind : find_by_name st qname with
  | some e0 =>
      rw [hfind] at h
      simp at h
  | none =>
      rw [hfind] at h
      dsimp only at h
      cases hbd : build_doc_index env qname
          (engine_saved_state qname uid pub st) with
      | mk st2 r2 =>
          rw [hbd] at h
          cases r2 with
          | error e => simp at h
          | ok pr =>
              obtain ⟨dpX, dnpX⟩ := pr
              dsimp only at h
              rw [Prod.mk.injEq, Except.ok.injEq, Prod.mk.injEq,
                Prod.mk.injEq] at h
              obtain ⟨hst2, hqid, hdp, hdnp⟩ := h
              subst hst2
              subst hqid
              subst hdp
              subst hdnp
              unfold build_doc_index at hbd
              rw [engine_saved_state_find qname uid pub st hfind] at hbd
              dsimp only at hbd
              cases hpd : process_documents env st.nextModelId qname
                  (engine_saved_state qname uid pub st) with
              | mk st3 r3 =>
                  rw [hpd] at hbd
                  cases r3 with
                  | error e => simp at hbd
                  | ok pr3 =>
                      obtain ⟨dpY, dnpY⟩ := pr3
                      dsimp only at hbd
                      by_cases hz : (dpY.length == 0) = true
                      · rw [if_pos hz] at hbd
                        simp at hbd
                      · rw [Bool.not_eq_true] at hz
                        rw [hz] at hbd
                        simp only [Bool.false_eq_true, if_false] at hbd
                        by_cases hci : env.createIndexFails = true
                        · rw [if_pos hci] at hbd
                          simp at hbd
                        · rw [Bool.not_eq_true] at hci
                          rw [hci] at hbd
                          simp only [Bool.false_eq_true, if_false,
                            Prod.mk.injEq, Except.ok.injEq,
                            Prod.mk.injEq] at hbd
                          obtain ⟨hst3, hdpY, hdnpY⟩ := hbd
                          subst hst3
                          subst hdpY
                          subst hdnpY
                          unfold process_documents at hpd
                          by_cases hde : env.docs.isEmpty = true
                          · rw [if_pos hde] at hpd
                            simp at hpd
                          · rw [Bool.not_eq_true] at hde
                            rw [hde] at hpd
                            simp only [Bool.false_eq_true, if_false]
                              at hpd
                            have hfacts := process_go_facts env
                              st.nextModelId qname env.docs 0 [] [] _
                              st3 dpY dnpY hpd (by
                                rw [engine_saved_state_fileSystem,
                                  engine_saved_state_nextDirId]
                                exact hfsinv)
                            obtain ⟨tail, htail, hcont, hdocs, hqids,
                              heng, ⟨newC, hch, hcov⟩,
                              ⟨newB, hbu, hid⟩, _⟩ := hfacts
                            rw [List.nil_append] at htail
                            subst htail
                            rw [engine_saved_state_documents] at hdocs
                            rw [engine_saved_state_chunks] at hch
                            rw [engine_saved_state_bucket] at hbu
                            exact ⟨rfl, hcont, hqids, hdocs,
                              ⟨newC, hch, hcov⟩, ⟨newB, hbu, hid⟩⟩

/- ## Delete / rollback projection lemmas -/

theorem deleteDocsOfEngine_documents (qid : Nat) (st : SysState) :
    (deleteDocsOfEngine qid st).documents =
      st.documents.filter (fun d => !(d.queryEngineId == qid)) := rfl

theorem deleteDocsOfEngine_chunks (qid : Nat) (st : SysState) :
    (deleteDocsOfEngine qid st).chunks = st.chunks := rfl

theorem deleteDocsOfEngine_engines (qid : Nat) (st : SysState) :
    (deleteDocsOfEngine qid st).engines = st.engines := rfl

theorem deleteChunksOfEngine_documents (qid : Nat) (st : SysState) :
    (deleteChunksOfEngine qid st).documents = st.documents := rfl

theorem deleteChunksOfEngine_chunks (qid : Nat) (st : SysState) :
    (deleteChunksOfEngine qid st).chunks =
      st.chunks.filter (fun c => !(c.queryEngineId == qid)) := rfl

theorem deleteChunksOfEngine_engines (qid : Nat) (st : SysState) :
    (deleteChunksOfEngine qid st).engines = st.engines := rfl

theorem deleteEngineById_documents (qid : Nat) (st : SysState) :
    (deleteEngineById qid st).documents = st.documents := rfl

theorem deleteEngineById_chunks (qid : Nat) (st : SysState) :
    (deleteEngineById qid st).chunks = st.chunks := rfl

theorem deleteEngineById_engines (qid : Nat) (st : SysState) :
    (deleteEngineById qid st).engines =
      st.engines.filter (fun e => !(e.id == qid)) := rfl

theorem build_doc_index_engines (env : Env) (qn : String)
    (st : SysState) :
    ((build_doc_index env qn st).1).engines = st.engines := by
  unfold build_doc_index
  cases hfind : find_by_name st qn with
  | none => rfl
  | some q0 =>
      dsimp only
      cases hpd : process_documents env q0.id q0.name st with
      | mk st1 r1 =>
          have h1 : st1.engines = st.engines := by
            have := process_documents_engines env q0.id q0.name st
            rw [hpd] at this
            exact this
          cases r1 with
          | error e => exact h1
          | ok pr =>
              obtain ⟨dp, dnp⟩ := pr
              dsimp only
              by_cases hz : (dp.length == 0) = true
              · rw [if_pos hz]
                exact h1
              · rw [Bool.not_eq_true] at hz
                rw [hz]
                simp only [Bool.false_eq_true, if_false]
                by_cases hci : env.createIndexFails = true
                · rw [if_pos hci]
                  exact h1
                · rw [Bool.not_eq_true] at hci
                  rw [hci]
                  simp only [Bool.false_eq_true, if_false]
                  exact h1

/-- When every document read fails, the processing loop finishes cleanly,
processing nothing and recording every document url as not processed. -/
theorem process_go_all_fail (env : Env) (qid : Nat) (qname : String) :
    ∀ (docs : List DocInput) (ib : Nat) (dp0 : List QueryDocumentRec)
      (dnp0 : List String) (st : SysState),
      (∀ d ∈ docs, readFails d.read = true) →
      process_docs_go env qid qname docs ib dp0 dnp0 st =
        (st, Except.ok (dp0, dnp0 ++ docs.map (fun d => d.url))) := by
  intro docs
  induction docs with
  | nil =>
      intro ib dp0 dnp0 st hfail
      simp [process_docs_go]
  | cons doc rest ih =>
      intro ib dp0 dnp0 st hfail
      have hd := hfail doc (List.mem_cons_self doc rest)
      rw [process_docs_go]
      cases hr : doc.read with
      | readError =>
          have h1 : process_one_doc env qid qname doc ib st =
              (st, Except.ok DocStepResult.notProcessed) := by
            unfold process_one_doc
            rw [hr]
          rw [h1]
          dsimp only
          rw [ih ib dp0 (dnp0 ++ [doc.url]) st
            (fun x hx => hfail x (List.mem_cons_of_mem doc hx))]
          simp
      | noContent =>
          have h1 : process_one_doc env qid qname doc ib st =
              (st, Except.ok DocStepResult.notProcessed) := by
            unfold process_one_doc
            rw [hr]
          rw [h1]
          dsimp only
          rw [ih ib dp0 (dnp0 ++ [doc.url]) st
            (fun x hx => hfail x (List.mem_cons_of_mem doc hx))]
          simp
      | sections ts =>
          rw [hr] at hd
          simp [readFails] at hd

/-- Rollback facts: after query_engine_build fails past the duplicate-name
check, the error reaching the caller is an internal error, and no
QueryEngine, QueryDocument or QueryDocumentChunk record of the new engine
survives; in particular the engine name resolves to nothing. -/
theorem query_engine_build_error_facts (env : Env) (qname uid : String)
    (pub : Bool) (st st' : SysState) (e : Err)
    (hnone : find_by_name st qname = none)
    (h : query_engine_build env qname uid pub st =
      (st', Except.error e)) :
    (∃ e0, e = Err.internalError e0) ∧
    (∀ x ∈ st'.documents, x.queryEngineId ≠ st.nextModelId) ∧
    (∀ x ∈ st'.chunks, x.queryEngineId ≠ st.nextModelId) ∧
    (∀ x ∈ st'.engines, x.id ≠ st.nextModelId) ∧
    find_by_name st' qname = none := by
  unfold query_engine_build at h
  rw [hnone] at h
  dsimp only at h
  cases hbd : build_doc_index env qname
      (engine_saved_state qname uid pub st) with
  | mk st2 r2 =>
      rw [hbd] at h
      cases r2 with
      | ok pr =>
          obtain ⟨dpX, dnpX⟩ := pr
          simp at h
      | error e2 =>
          dsimp only at h
          rw [Prod.mk.injEq] at h
          obtain ⟨hst', he⟩ := h
          rw [Except.error.injEq] at he
          subst hst'
          have heng2 : st2.engines =
              st.engines ++
                [{ id := st.nextModelId, name := qname, createdBy := uid,
                   llmType := DEFAULT_QUERY_EMBEDDING_MODEL,
                   isPublic := pub }] := by
            have := build_doc_index_engines env qname
              (engine_saved_state qname uid pub st)
            rw [hbd] at this
            rw [this, engine_saved_state_engines]
          refine ⟨⟨e2, he.symm⟩, ?_, ?_, ?_, ?_⟩
          · intro x hx
            rw [deleteEngineById_documents, deleteChunksOfEngine_documents,
              deleteDocsOfEngine_documents] at hx
            rw [List.mem_filter] at hx
            have := hx.2
            simp only [Bool.not_eq_true', beq_eq_false_iff_ne] at this
            exact this
          · intro x hx
            rw [deleteEngineById_chunks, deleteChunksOfEngine_chunks,
              deleteDocsOfEngine_chunks] at hx
            rw [List.mem_filter] at hx
            have := hx.2
            simp only [Bool.not_eq_true', beq_eq_false_iff_ne] at this
            exact this
          · intro x hx
            rw [deleteEngineById_engines, deleteChunksOfEngine_engines,
              deleteDocsOfEngine_engines] at hx
            rw [List.mem_filter] at hx
            have := hx.2
            simp only [Bool.not_eq_true', beq_eq_false_iff_ne] at this
            exact this
          · rw [find_by_name_none_iff]
            intro x hx
            rw [deleteEngineById_engines, deleteChunksOfEngine_engines,
              deleteDocsOfEngine_engines, heng2] at hx
            rw [List.mem_filter] at hx
            obtain ⟨hxm, hxid⟩ := hx
            rcases List.mem_append.mp hxm with hxm | hxm
            · have := (find_by_name_none_iff st qname).mp hnone x hxm
              exact this
            · rcases List.mem_singleton.mp hxm with hx1
              rw [hx1] at hxid
              simp at hxid

/-- Trace order of the rollback: document deletes, then chunk deletes,
then the engine delete, at the very end of the trace. -/
theorem query_engine_build_error_trace (env : Env) (qname uid : String)
    (pub : Bool) (st st' : SysState) (e : Err)
    (hnone : find_by_name st qname = none)
    (h : query_engine_build env qname uid pub st =
      (st', Except.error e)) :
    ∃ T, st'.trace = T ++
      [Event.deleteDocsByEngine st.nextModelId,
       Event.deleteChunksByEngine st.nextModelId,
       Event.deleteEngine st.nextModelId] := by
  unfold query_engine_build at h
  rw [hnone] at h
  dsimp only at h
  cases hbd : build_doc_index env qname
      (engine_saved_state qname uid pub st) with
  | mk st2 r2 =>
      rw [hbd] at h
      cases r2 with
      | ok pr =>
          obtain ⟨dpX, dnpX⟩ := pr
          simp at h
      | error e2 =>
          dsimp only at h
          rw [Prod.mk.injEq] at h
          obtain ⟨hst', he⟩ := h
          subst hst'
          refine ⟨st2.trace, ?_⟩
          show ((st2.trace ++ [Event.deleteDocsByEngine st.nextModelId]) ++
            [Event.deleteChunksByEngine st.nextModelId]) ++
            [Event.deleteEngine st.nextModelId] = _
          simp

/-- Result of query_engine_build when every document read fails (or there
are no documents at all): the raised NoDocumentsIndexed is wrapped twice
as an internal error. -/
theorem query_engine_build_all_read_fail (env : Env) (qname uid : String)
    (pub : Bool) (st : SysState)
    (hnone : find_by_name st qname = none)
    (hfail : ∀ d ∈ env.docs, readFails d.read = true) :
    ∃ st' m, query_engine_build env qname uid pub st =
      (st', Except.error (Err.internalError (Err.internalError
        (Err.noDocumentsIndexed m)))) := by
  by_cases hde : env.docs.isEmpty = true
  · have hpd : process_documents env st.nextModelId qname
        (engine_saved_state qname uid pub st) =
        (engine_saved_state qname uid pub st,
          Except.error (Err.noDocumentsIndexed
            ("No documents can be indexed"))) := by
      unfold process_documents
      rw [if_pos hde]
    have hbd : build_doc_index env qname
        (engine_saved_state qname uid pub st) =
        (engine_saved_state qname uid pub st,
          Except.error (Err.internalError (Err.noDocumentsIndexed
            ("No documents can be indexed")))) := by
      unfold build_doc_index
      rw [engine_saved_state_find qname uid pub st hnone]
      dsimp only
      rw [hpd]
    refine ⟨deleteEngineById st.nextModelId (deleteChunksOfEngine
      st.nextModelId (deleteDocsOfEngine st.nextModelId
        (engine_saved_state qname uid pub st))),
      ("No documents can be indexed"), ?_⟩
    unfold query_engine_build
    rw [hnone]
    dsimp only
    rw [hbd]
  · rw [Bool.not_eq_true] at hde
    have hpd : process_documents env st.nextModelId qname
        (engine_saved_state qname uid pub st) =
        (engine_saved_state qname uid pub st,
          Except.ok ([], [] ++ env.docs.map (fun d => d.url))) := by
      unfold process_documents
      rw [hde]
      simp only [Bool.false_eq_true, if_false]
      exact process_go_all_fail env st.nextModelId qname env.docs 0 [] []
        (engine_saved_state qname uid pub st) hfail
    have hbd : build_doc_index env qname
        (engine_saved_state qname uid pub st) =
        (engine_saved_state qname uid pub st,
          Except.error (Err.internalError (Err.noDocumentsIndexed
            ("Failed to process any documents")))) := by
      unfold build_doc_index
      rw [engine_saved_state_find qname uid pub st hnone]
      dsimp only
      rw [hpd]
      rfl
    refine ⟨deleteEngineById st.nextModelId (deleteChunksOfEngine
      st.nextModelId (deleteDocsOfEngine st.nextModelId
        (engine_saved_state qname uid pub st))),
      ("Failed to process any documents"), ?_⟩
    unfold query_engine_build
    rw [hnone]
    dsimp only
    rw [hbd]

/-- Claim C1: whenever query_engine_build fails after the QueryEngine
record was created (the name was initially free, so the duplicate-name
check passed and the engine was persisted), the rollback deletes every
QueryDocument, QueryDocumentChunk and QueryEngine record of the new
engine — document and chunk deletes first, the engine delete last — and
the caller receives the failure wrapped as an internal error, never a
half-committed engine. -/
theorem query_engine_build_rolls_back_on_failure (env : Env)
    (qname uid : String) (pub : Bool) (st st' : SysState) (e : Err)
    (hnone : find_by_name st qname = none)
    (h : query_engine_build env qname uid pub st =
      (st', Except.error e)) :
    (∃ e0, e = Err.internalError e0) ∧
    (∀ x ∈ st'.documents, x.queryEngineId ≠ st.nextModelId) ∧
    (∀ x ∈ st'.chunks, x.queryEngineId ≠ st.nextModelId) ∧
    (∀ x ∈ st'.engines, x.id ≠ st.nextModelId) ∧
    (∃ T, st'.trace = T ++
      [Event.deleteDocsByEngine st.nextModelId,
       Event.deleteChunksByEngine st.nextModelId,
       Event.deleteEngine st.nextModelId]) := by
  have hf := query_engine_build_error_facts env qname uid pub st st' e
    hnone h
  exact ⟨hf.1, hf.2.1, hf.2.2.1, hf.2.2.2.1,
    query_engine_build_error_trace env qname uid pub st st' e hnone h⟩

/-- Environment with an empty corpus and an always-succeeding embedding
model. -/
def envNoDocs : Env :=
  { batchFails := fun _ => false, embedOne := fun _ => [],
    docs := [], createIndexFails := false }

/-- Witness for claim C1, at the concrete empty-corpus build, which fails
with NoDocumentsIndexed after creating the engine. -/
theorem query_engine_build_rolls_back_on_failure_witness :
    (∃ e0, Err.internalError (Err.internalError (Err.noDocumentsIndexed
      ("No documents can be indexed"))) = Err.internalError e0) ∧
    (∀ x ∈ ((query_engine_build envNoDocs ("eng") ("u") true
        initialState).1).documents,
      x.queryEngineId ≠ initialState.nextModelId) ∧
    (∀ x ∈ ((query_engine_build envNoDocs ("eng") ("u") true
        initialState).1).chunks,
      x.queryEngineId ≠ initialState.nextModelId) ∧
    (∀ x ∈ ((query_engine_build envNoDocs ("eng") ("u") true
        initialState).1).engines,
      x.id ≠ initialState.nextModelId) ∧
    (∃ T, ((query_engine_build envNoDocs ("eng") ("u") true
        initialState).1).trace = T ++
      [Event.deleteDocsByEngine initialState.nextModelId,
       Event.deleteChunksByEngine initialState.nextModelId,
       Event.deleteEngine initialState.nextModelId]) :=
  query_engine_build_rolls_back_on_failure envNoDocs ("eng") ("u") true
    initialState _ _ rfl rfl

/-- Claim C3: if every document of the corpus fails to yield text (or the
corpus is empty), the build fails with NoDocumentsIndexed wrapped as an
internal error, and afterwards looking the engine name up finds
nothing. -/
theorem all_docs_failing_build_fails_and_rolls_back (env : Env)
    (qname uid : String) (pub : Bool) (st : SysState)
    (hnone : find_by_name st qname = none)
    (hfail : ∀ d ∈ env.docs, readFails d.read = true) :
    (∃ m, (query_engine_build env qname uid pub st).2 =
      Except.error (Err.internalError (Err.internalError
        (Err.noDocumentsIndexed m)))) ∧
    find_by_name (query_engine_build env qname uid pub st).1 qname =
      none := by
  obtain ⟨st', m, heq⟩ := query_engine_build_all_read_fail env qname uid
    pub st hnone hfail
  have hf := query_engine_build_error_facts env qname uid pub st st' _
    hnone heq
  constructor
  · refine ⟨m, ?_⟩
    rw [heq]
  · rw [heq]
    exact hf.2.2.2.2

/-- Environment whose single document cannot be read. -/
def envBadDoc : Env :=
  { batchFails := fun _ => false, embedOne := fun _ => [],
    docs := [⟨("bad.pdf"), ("gs://b/bad.pdf"), ReadResult.readError⟩],
    createIndexFails := false }

/-- Witness for claim C3 at a concrete one-document corpus whose document
fails to read. -/
theorem all_docs_failing_build_fails_and_rolls_back_witness :
    (∃ m, (query_engine_build envBadDoc ("eng") ("u") true
        initialState).2 =
      Except.error (Err.internalError (Err.internalError
        (Err.noDocumentsIndexed m)))) ∧
    find_by_name (query_engine_build envBadDoc ("eng") ("u") true
      initialState).1 ("eng") = none :=
  all_docs_failing_build_fails_and_rolls_back envBadDoc ("eng") ("u")
    true initialState rfl (by
      intro d hd
      rcases List.mem_singleton.mp hd with h
      rw [h]
      rfl)

/-- Claim C4: a build request whose engine name already resolves raises
ValidationError and performs no mutation at all: the returned state is the
input state. -/
theorem duplicate_engine_name_rejected_without_mutation (env : Env)
    (qname uid : String) (pub : Bool) (st : SysState)
    (e0 : QueryEngineRec) (h : find_by_name st qname = some e0) :
    query_engine_build env qname uid pub st =
      (st, Except.error (Err.validationError
        ("Query engine " ++ qname ++ " already exists"))) := by
  unfold query_engine_build
  rw [h]

/-- An existing engine record named eng. -/
def existingEngineRec : QueryEngineRec :=
  { id := 0, name := ("eng"), createdBy := ("u"),
    llmType := DEFAULT_QUERY_EMBEDDING_MODEL, isPublic := true }

/-- A state that already holds an engine named eng. -/
def stateWithEngine : SysState :=
  { engines := [existingEngineRec], documents := [], chunks := [],
    fileSystem := [], bucket := [], nextModelId := 1, nextDirId := 0,
    trace := [] }

/-- Witness for claim C4 at a concrete state already holding the engine. -/
theorem duplicate_engine_name_rejected_without_mutation_witness :
    query_engine_build envNoDocs ("eng") ("u2") false stateWithEngine =
      (stateWithEngine, Except.error (Err.validationError
        ("Query engine " ++ ("eng") ++ " already exists"))) :=
  duplicate_engine_name_rejected_without_mutation envNoDocs ("eng")
    ("u2") false stateWithEngine existingEngineRec rfl

/-- Claim C2: for every successfully built engine the persisted Documents
have pairwise disjoint half-open ranges whose union is contiguous from 0:
the first document starts at 0 and each next one starts where the previous
ended; moreover the returned processed list is exactly the set of Document
records persisted for the engine. -/
theorem built_engine_ranges_contiguous (env : Env) (qname uid : String)
    (pub : Bool) (st st' : SysState) (qid : Nat)
    (dp : List QueryDocumentRec) (dnp : List String)
    (hfsinv : ∀ f ∈ st.fileSystem, f.dir < st.nextDirId)
    (hclean : st.documents.filter
      (fun d => d.queryEngineId == st.nextModelId) = [])
    (h : query_engine_build env qname uid pub st =
      (st', Except.ok (qid, dp, dnp))) :
    contiguousFromB 0 dp = true ∧
    dp.Pairwise (fun a c => a.indexEnd ≤ c.indexStart) ∧
    st'.documents.filter (fun d => d.queryEngineId == qid) = dp := by
  obtain ⟨hqid, hcont, hqids, hdocs, _, _⟩ :=
    query_engine_build_facts env qname uid pub st st' qid dp dnp h hfsinv
  refine ⟨hcont, contiguousFromB_pairwise 0 dp hcont, ?_⟩
  rw [hdocs, List.filter_append]
  have h1 : st.documents.filter (fun d => d.queryEngineId == qid) = [] := by
    rw [hqid]
    exact hclean
  have h2 : dp.filter (fun d => d.queryEngineId == qid) = dp := by
    rw [List.filter_eq_self]
    intro a ha
    rw [beq_iff_eq]
    exact hqids a ha
  rw [h1, h2, List.nil_append]

/-- Environment with one tiny readable document and an always-succeeding
embedding model. -/
def envOneDoc : Env :=
  { batchFails := fun _ => false, embedOne := fun _ => [7],
    docs := [⟨("a.txt"), ("gs://b/a.txt"),
      ReadResult.sections [['h', 'i']]⟩],
    createIndexFails := false }

/-- The single QueryDocument record produced by the envOneDoc build. -/
def oneDocRec : QueryDocumentRec :=
  { id := 1, queryEngineId := 0, queryEngine := ("eng"),
    docUrl := ("gs://b/a.txt"), indexStart := 0, indexEnd := 1 }

/-- Witness for claim C2 at a concrete successful one-document build. -/
theorem built_engine_ranges_contiguous_witness :
    contiguousFromB 0 [oneDocRec] = true ∧
    List.Pairwise (fun a c => a.indexEnd ≤ c.indexStart) [oneDocRec] ∧
    ((query_engine_build envOneDoc ("eng") ("u") true
        initialState).1).documents.filter
      (fun d => d.queryEngineId == 0) = [oneDocRec] :=
  built_engine_ranges_contiguous envOneDoc ("eng") ("u") true
    initialState _ 0 _ [] (by intro f hf; simp [initialState] at hf)
    rfl rfl

/-- Claim C10: after a successful build, every chunk position of every
processed document resolves to a persisted DocumentChunk record of the
engine — including positions whose embedding failed — and every id present
in an uploaded embedding file resolves to a persisted DocumentChunk of the
engine, so ANN neighbor ids always resolve. -/
theorem chunk_records_cover_index_ids (env : Env) (qname uid : String)
    (pub : Bool) (st st' : SysState) (qid : Nat)
    (dp : List QueryDocumentRec) (dnp : List String)
    (hfsinv : ∀ f ∈ st.fileSystem, f.dir < st.nextDirId)
    (hbucket : st.bucket = [])
    (h : query_engine_build env qname uid pub st =
      (st', Except.ok (qid, dp, dnp))) :
    (∀ x ∈ dp, ∀ i, x.indexStart ≤ i → i < x.indexEnd →
      ∃ c ∈ st'.chunks, c.index = i ∧ c.queryEngineId = qid ∧
        c.queryDocumentId = x.id) ∧
    (∀ p ∈ st'.bucket, ∀ r ∈ p.2, ∃ c ∈ st'.chunks,
      c.index = r.1 ∧ c.queryEngineId = qid) := by
  obtain ⟨hqid, hcont, hqids, hdocs, ⟨newC, hch, hcov⟩,
    ⟨newB, hbu, hid⟩⟩ :=
    query_engine_build_facts env qname uid pub st st' qid dp dnp h hfsinv
  constructor
  · intro x hx i h1 h2
    obtain ⟨c, hcm, hcp⟩ := hcov x hx i h1 h2
    exact ⟨c, by rw [hch]; exact List.mem_append_right st.chunks hcm, hcp⟩
  · intro p hp r hr
    rw [hbu, hbucket, List.nil_append] at hp
    obtain ⟨x, hxm, hx1, hx2⟩ := hid p hp r hr
    obtain ⟨c, hcm, hcp⟩ := hcov x hxm r.1 hx1 hx2
    exact ⟨c, by rw [hch]; exact List.mem_append_right st.chunks hcm,
      hcp.1, hcp.2.1⟩

/-- Witness for claim C10 at the same concrete one-document build. -/
theorem chunk_records_cover_index_ids_witness :
    (∀ x ∈ [oneDocRec],
      ∀ i, x.indexStart ≤ i → i < x.indexEnd →
      ∃ c ∈ ((query_engine_build envOneDoc ("eng") ("u") true
          initialState).1).chunks, c.index = i ∧ c.queryEngineId = 0 ∧
        c.queryDocumentId = x.id) ∧
    (∀ p ∈ ((query_engine_build envOneDoc ("eng") ("u") true
        initialState).1).bucket, ∀ r ∈ p.2,
      ∃ c ∈ ((query_engine_build envOneDoc ("eng") ("u") true
          initialState).1).chunks,
        c.index = r.1 ∧ c.queryEngineId = 0) :=
  chunk_records_cover_index_ids envOneDoc ("eng") ("u") true
    initialState _ 0 _ [] (by intro f hf; simp [initialState] at hf)
    rfl rfl

/-- Claim C6: the encoder returns one entry per input chunk (vector or the
None failure marker), the derived success mask has the same length, every
returned vector has the model's fixed dimension, and a whole failed batch
call marks every chunk of that batch as failed instead of raising. -/
theorem encoder_output_contract (env : Env) (tc : List TextS)
    (hdim : ∀ t, (env.embedOne t).length = DIMENSIONS) :
    (embeddings_list env tc).length = tc.length ∧
    (is_successful_mask env tc).length = tc.length ∧
    (∀ o ∈ embeddings_list env tc, ∀ v, o = some v →
      v.length = DIMENSIONS) ∧
    (∀ b ∈ generate_batches tc ITEMS_PER_REQUEST,
      env.batchFails b = true →
        encode_texts_to_embeddings env b = b.map (fun _ => none)) := by
  refine ⟨embeddings_list_length env tc,
    is_successful_mask_length env tc, ?_, ?_⟩
  · intro o ho v hv
    unfold embeddings_list at ho
    rw [List.mem_flatMap] at ho
    obtain ⟨b, hb, hob⟩ := ho
    unfold encode_texts_to_embeddings at hob
    by_cases hf : env.batchFails b = true
    · rw [if_pos hf] at hob
      rw [List.mem_map] at hob
      obtain ⟨t, _, ht⟩ := hob
      rw [← ht] at hv
      cases hv
    · rw [Bool.not_eq_true] at hf
      rw [hf] at hob
      simp only [Bool.false_eq_true, if_false] at hob
      rw [List.mem_map] at hob
      obtain ⟨t, _, ht⟩ := hob
      rw [← ht] at hv
      rw [Option.some.injEq] at hv
      rw [← hv]
      exact hdim t
  · intro b hb hf
    unfold encode_texts_to_embeddings
    rw [if_pos hf]

/-- Environment whose embedding model produces 768-dimension vectors and
whose final short batch fails whole. -/
def envDim : Env :=
  { batchFails := fun b => b.length == 2,
    embedOne := fun _ => List.replicate DIMENSIONS 0,
    docs := [], createIndexFails := false }

/-- Seven one-character chunks: two batches of 5 and 2 chunks, the second
of which fails whole. -/
def sevenChunks : List TextS :=
  [['a'], ['b'], ['c'], ['d'], ['e'], ['f'], ['g']]

/-- Witness for claim C6 at a concrete seven-chunk input with a failing
batch. -/
theorem encoder_output_contract_witness :
    (embeddings_list envDim sevenChunks).length = sevenChunks.length ∧
    (is_successful_mask envDim sevenChunks).length =
      sevenChunks.length ∧
    (∀ o ∈ embeddings_list envDim sevenChunks, ∀ v, o = some v →
      v.length = DIMENSIONS) ∧
    (∀ b ∈ generate_batches sevenChunks ITEMS_PER_REQUEST,
      envDim.batchFails b = true →
        encode_texts_to_embeddings envDim b =
          b.map (fun _ => none)) :=
  encoder_output_contract envDim sevenChunks
    (fun _ => List.length_replicate DIMENSIONS 0)

/- ## Existence of successful runs, and replicate chunking -/

theorem chunkList_replicate {α : Type} (n : Nat) (hn : n ≠ 0) (m : Nat)
    (a : α) :
    chunkList n (List.replicate m a) =
      if m = 0 then []
      else if m ≤ n then [List.replicate m a]
      else List.replicate n a :: chunkList n (List.replicate (m - n) a) := by
  rw [chunkList_eq]
  match m with
  | 0 => simp
  | k + 1 =>
      have hne : (List.replicate (k + 1) a).isEmpty = false := by
        rw [List.replicate_succ]
        rfl
      rw [hne]
      have hn' : (n == 0) = false := by
        simp [hn]
      rw [hn']
      simp only [Bool.or_self, Bool.false_eq_true, if_false,
        List.take_replicate, List.drop_replicate]
      by_cases hmn : k + 1 ≤ n
      · have hmin : min n (k + 1) = k + 1 := by omega
        have hz : k + 1 - n = 0 := by omega
        rw [hmin, hz]
        simp [hmn, chunkList_nil]
      · have hmin : min n (k + 1) = n := by omega
        rw [hmin]
        rw [if_neg (by omega), if_neg hmn]

theorem chunkList_two_slices {α : Type} (n : Nat) (hn : n ≠ 0)
    (l : List α) (hlen : n < l.length) :
    2 ≤ (chunkList n l).length := by
  rw [chunkList_eq]
  have hl : l ≠ [] := by
    intro h
    rw [h] at hlen
    simp at hlen
  have hc : (l.isEmpty || n == 0) = false := by simp [hn, hl]
  rw [hc]
  simp only [Bool.false_eq_true, if_false, List.length_cons]
  have hd : l.drop n ≠ [] := by
    intro h
    have := congrArg List.length h
    rw [List.length_drop] at this
    simp at this
    omega
  have : chunkList n (l.drop n) ≠ [] :=
    chunkList_ne_nil n hn (l.drop n) hd
  have : 0 < (chunkList n (l.drop n)).length := List.length_pos.mpr this
  omega

/-- When no batch of any slice fails and the chunk list is non-empty, the
_generate_index_data loop runs to completion. -/
theorem gen_go_all_ok (env : Env) (nm : String) :
    ∀ (slices : List (List TextS)) (ib : Nat) (last : Option Nat)
      (st : SysState),
      slices ≠ [] →
      (∀ s ∈ slices, s ≠ []) →
      (∀ s ∈ slices, ∀ b ∈ generate_batches s ITEMS_PER_REQUEST,
        env.batchFails b = false) →
      ∃ st' nb d, gen_index_go env nm slices ib last st =
        (st', Except.ok (nb, d)) := by
  intro slices
  induction slices with
  | nil =>
      intro ib last st hne _ _
      exact absurd rfl hne
  | cons s rest ih =>
      intro ib last st _ hsne hbat
      rw [gen_index_go]
      have hemb := get_embedding_batched_all_ok env s
        (hsne s (List.mem_cons_self s rest))
        (hbat s (List.mem_cons_self s rest))
      rw [hemb]
      dsimp only
      by_cases hrest : rest = []
      · subst hrest
        exact ⟨_, _, _, rfl⟩
      · obtain ⟨st', nb, d, hrec⟩ := ih (ib + s.length)
          (some st.nextDirId) _ hrest
          (fun x hx => hsne x (List.mem_cons_of_mem s hx))
          (fun x hx => hbat x (List.mem_cons_of_mem s hx))
        exact ⟨st', nb, d, hrec⟩

/-- The QueryDocument record as constructed by index_and_persist_doc. -/
def made_query_doc (qid : Nat) (qname du : String) (ib nb : Nat)
    (st3 : SysState) : QueryDocumentRec :=
  { id := st3.nextModelId, queryEngineId := qid, queryEngine := qname,
    docUrl := du, indexStart := ib, indexEnd := nb }

/-- When the chunk list is non-empty and no embedding batch fails, one
document is indexed and persisted successfully, its range spanning
exactly its chunk count. -/
theorem index_and_persist_exists_ok (env : Env) (qid : Nat)
    (qname dn du : String) (tc : List TextS) (ib : Nat) (st : SysState)
    (htc : tc ≠ [])
    (hbat : ∀ s ∈ chunkList MAX_NUM_TEXT_CHUNK_PROCESS tc,
      ∀ b ∈ generate_batches s ITEMS_PER_REQUEST,
        env.batchFails b = false) :
    ∃ st' q, index_and_persist_doc env qid qname dn du tc ib st =
      (st', Except.ok (DocStepResult.processed q (ib + tc.length))) ∧
      q.indexStart = ib ∧ q.indexEnd = ib + tc.length ∧
      q.queryEngineId = qid := by
  obtain ⟨st1, nb, d, hgen⟩ := gen_go_all_ok env dn
    (chunkList MAX_NUM_TEXT_CHUNK_PROCESS tc) ib none st
    (chunkList_ne_nil MAX_NUM_TEXT_CHUNK_PROCESS MAX_CHUNK_ne_zero tc htc)
    (chunkList_mem_ne_nil MAX_NUM_TEXT_CHUNK_PROCESS tc) hbat
  have hgen' : generate_index_data env dn tc ib st =
      (st1, Except.ok (nb, d)) := hgen
  have hnb : nb = ib + tc.length := by
    have := (gen_go_ok env dn _ ib none st st1 nb d hgen
      (chunkList_mem_length_le MAX_NUM_TEXT_CHUNK_PROCESS tc)).2.2.2.2.2.2.1
    rw [chunkList_sum_lengths MAX_NUM_TEXT_CHUNK_PROCESS
      MAX_CHUNK_ne_zero tc] at this
    exact this
  subst hnb
  refine ⟨save_chunks_go qid (upload_and_cleanup d st1).nextModelId ib tc
    (save_query_document (made_query_doc qid qname du ib
      (ib + tc.length) (upload_and_cleanup d st1))
      (upload_and_cleanup d st1)),
    made_query_doc qid qname du ib (ib + tc.length)
      (upload_and_cleanup d st1), ?_, rfl, rfl, rfl⟩
  unfold index_and_persist_doc
  rw [hgen']
  rfl

/-- A corpus holding one readable document whose chunks all embed
successfully commits the engine with that single processed document. -/
theorem build_one_doc_ok (env : Env) (qname uid : String) (pub : Bool)
    (st : SysState) (dn du : String) (ts : List TextS)
    (hnone : find_by_name st qname = none)
    (hdocs : env.docs = [⟨dn, du, ReadResult.sections ts⟩])
    (htc : ts.flatMap (split_text CHUNK_SIZE) ≠ [])
    (hbat : ∀ b, env.batchFails b = false)
    (hci : env.createIndexFails = false) :
    ∃ st' q, query_engine_build env qname uid pub st =
      (st', Except.ok (st.nextModelId, [q], [])) ∧
      q.indexStart = 0 ∧
      q.indexEnd = (ts.flatMap (split_text CHUNK_SIZE)).length := by
  obtain ⟨stA, q, hip, hqs, hqe, _⟩ := index_and_persist_exists_ok env
    st.nextModelId qname dn du (ts.flatMap (split_text CHUNK_SIZE)) 0
    (engine_saved_state qname uid pub st) htc
    (fun s _ b _ => hbat b)
  have h1 : process_one_doc env st.nextModelId qname
      ⟨dn, du, ReadResult.sections ts⟩ 0
      (engine_saved_state qname uid pub st) =
      (stA, Except.ok (DocStepResult.processed q
        (0 + (ts.flatMap (split_text CHUNK_SIZE)).length))) := by
    unfold process_one_doc
    exact hip
  have h2 : process_docs_go env st.nextModelId qname
      [⟨dn, du, ReadResult.sections ts⟩] 0 [] []
      (engine_saved_state qname uid pub st) =
      (stA, Except.ok ([q], [])) := by
    rw [process_docs_go, h1]
    dsimp only
    rw [process_docs_go]
    rfl
  have h3 : process_documents env st.nextModelId qname
      (engine_saved_state qname uid pub st) =
      (stA, Except.ok ([q], [])) := by
    unfold process_documents
    rw [hdocs]
    exact h2
  have h4 : build_doc_index env qname
      (engine_saved_state qname uid pub st) =
      (stA, Except.ok ([q], [])) := by
    unfold build_doc_index
    rw [engine_saved_state_find qname uid pub st hnone]
    dsimp only
    rw [h3]
    dsimp only
    rw [hci]
    rfl
  refine ⟨stA, q, ?_, hqs, by rw [hqe]; omega⟩
  unfold query_engine_build
  rw [hnone]
  dsimp only
  rw [h4]

/-- Environment with a single 2500-character plain-text document and an
always-succeeding embedding model. -/
def c8Env : Env :=
  { batchFails := fun _ => false, embedOne := fun _ => [0],
    docs := [⟨("doc.txt"), ("gs://b/doc.txt"),
      ReadResult.sections [List.replicate 2500 'a']⟩],
    createIndexFails := false }

/-- Claim C8: the chunker splits a 2500-character section into exactly the
chunks of lengths 1000, 1000 and 500 (fixed size, zero overlap, non-empty
trailing partial chunk kept), and the build of that one-document corpus
persists a Document with index_end - index_start = 3. -/
theorem chunking_2500_char_document :
    (([List.replicate 2500 'a'].flatMap (split_text CHUNK_SIZE)).map
      List.length = [1000, 1000, 500]) ∧
    ∃ st' q, query_engine_build c8Env ("eng") ("u") true initialState =
      (st', Except.ok (0, [q], [])) ∧
      q.indexEnd - q.indexStart = 3 := by
  have hsplit : split_text CHUNK_SIZE (List.replicate 2500 'a') =
      [List.replicate 1000 'a', List.replicate 1000 'a',
       List.replicate 500 'a'] := by
    unfold split_text
    rw [show CHUNK_SIZE = 1000 from rfl]
    rw [chunkList_replicate 1000 (by decide) 2500 'a',
      if_neg (by decide), if_neg (by decide),
      show (2500 - 1000 : Nat) = 1500 from by norm_num]
    rw [chunkList_replicate 1000 (by decide) 1500 'a',
      if_neg (by decide), if_neg (by decide),
      show (1500 - 1000 : Nat) = 500 from by norm_num]
    rw [chunkList_replicate 1000 (by decide) 500 'a',
      if_neg (by decide), if_pos (by decide)]
  have hflat : [List.replicate 2500 'a'].flatMap (split_text CHUNK_SIZE) =
      [List.replicate 1000 'a', List.replicate 1000 'a',
       List.replicate 500 'a'] := by
    rw [List.flatMap_cons, hsplit]
    simp only [List.flatMap_nil, List.append_nil]
  constructor
  · rw [hflat]
    simp only [List.map_cons, List.map_nil, List.length_replicate]
  · obtain ⟨st', q, heq, hqs, hqe⟩ := build_one_doc_ok c8Env ("eng")
      ("u") true initialState ("doc.txt") ("gs://b/doc.txt")
      [List.replicate 2500 'a'] rfl rfl
      (by rw [hflat]; exact List.cons_ne_nil _ _)
      (fun _ => rfl) rfl
    refine ⟨st', q, heq, ?_⟩
    rw [hqe, hqs, hflat]
    rfl

/-- Environment whose single readable document has every embedding batch
fail whole. -/
def envAllFailEmb : Env :=
  { batchFails := fun _ => true, embedOne := fun _ => [0],
    docs := [⟨("doc.txt"), ("gs://b/doc.txt"),
      ReadResult.sections [['a', 'b', 'c']]⟩],
    createIndexFails := false }

/-- Counterexample to claim C5 as stated: when every chunk of a document
fails encoding, its URL is not recorded in docs_not_processed and the
build does not continue — the whole build fails (np.stack of an empty
array raises, re-raised as an internal error) and the engine is rolled
back. -/
theorem all_chunks_fail_encoding_fails_build :
    (query_engine_build envAllFailEmb ("eng") ("u") true
      initialState).2 =
      Except.error (Err.internalError (Err.internalError
        Err.npStackEmpty)) ∧
    find_by_name (query_engine_build envAllFailEmb ("eng") ("u") true
      initialState).1 ("eng") = none :=
  ⟨rfl, rfl⟩

/-- Claim C5 as amended: (1) a Document record is persisted only after all
its embedding files are written and uploaded — in the per-document trace
every event behind the saveDoc event is a chunk save, so all writes and
uploads precede it; (2) a document all of whose chunks fail encoding is
never persisted and never recorded as unprocessed: processing it raises
the empty-stack error, which aborts the whole build (rolled back per the
C1 behavior). -/
theorem doc_persisted_after_upload_and_full_encode_failure_fatal
    (env : Env) (qid : Nat) (qname : String) (doc : DocInput) (ib : Nat)
    (st : SysState) :
    (∀ st1 q nb, process_one_doc env qid qname doc ib st =
        (st1, Except.ok (DocStepResult.processed q nb)) →
      (∀ f ∈ st.fileSystem, f.dir < st.nextDirId) →
      ∃ A B, st1.trace = st.trace ++ A ++ Event.saveDoc q :: B ∧
        ∀ e ∈ B, isSaveChunk e = true) ∧
    (∀ ts, doc.read = ReadResult.sections ts →
      ts.flatMap (split_text CHUNK_SIZE) ≠ [] →
      (∀ sl ∈ chunkList MAX_NUM_TEXT_CHUNK_PROCESS
          (ts.flatMap (split_text CHUNK_SIZE)),
        ∀ b ∈ generate_batches sl ITEMS_PER_REQUEST,
          env.batchFails b = true) →
      (process_one_doc env qid qname doc ib st).2 =
        Except.error Err.npStackEmpty) := by
  constructor
  · intro st1 q nb h hfsinv
    unfold process_one_doc at h
    cases hr : doc.read with
    | readError =>
        rw [hr] at h
        rw [Prod.mk.injEq, Except.ok.injEq] at h
        cases h.2
    | noContent =>
        rw [hr] at h
        rw [Prod.mk.injEq, Except.ok.injEq] at h
        cases h.2
    | sections ts =>
        rw [hr] at h
        have hfacts := index_and_persist_facts env qid qname doc.name
          doc.url (ts.flatMap (split_text CHUNK_SIZE)) ib st st1 q nb h
          hfsinv
        exact hfacts.2.2.2.2.2.2.2.2.2.2.2.2
  · intro ts hread htc hbat
    unfold process_one_doc
    rw [hread]
    obtain ⟨s0, rest, hs⟩ := List.exists_cons_of_ne_nil
      (chunkList_ne_nil MAX_NUM_TEXT_CHUNK_PROCESS MAX_CHUNK_ne_zero
        (ts.flatMap (split_text CHUNK_SIZE)) htc)
    have hemb : get_embedding_batched env s0 =
        Except.error Err.npStackEmpty :=
      get_embedding_batched_all_fail env s0
        (hbat s0 (by rw [hs]; exact List.mem_cons_self s0 rest))
    unfold index_and_persist_doc generate_index_data
    dsimp only
    rw [hs, gen_index_go, hemb]

/-- The document of envOneDoc. -/
def docA : DocInput :=
  ⟨("a.txt"), ("gs://b/a.txt"), ReadResult.sections [['h', 'i']]⟩

/-- The QueryDocument record the envOneDoc build persists when processing
starts from the empty state. -/
def qA : QueryDocumentRec :=
  { id := 0, queryEngineId := 0, queryEngine := ("eng"),
    docUrl := ("gs://b/a.txt"), indexStart := 0, indexEnd := 1 }

/-- The document of envAllFailEmb. -/
def docB : DocInput :=
  ⟨("doc.txt"), ("gs://b/doc.txt"), ReadResult.sections [['a', 'b', 'c']]⟩

/-- Witness for the amended claim C5: the trace-order conclusion at a
concrete successfully processed document, and the fatal-error conclusion
at a concrete document whose only batch fails. -/
theorem doc_persisted_after_upload_witness :
    (∃ A B, ((process_one_doc envOneDoc 0 ("eng") docA 0
        initialState).1).trace =
      initialState.trace ++ A ++ Event.saveDoc qA :: B ∧
        ∀ e ∈ B, isSaveChunk e = true) ∧
    (process_one_doc envAllFailEmb 0 ("eng") docB 0 initialState).2 =
      Except.error Err.npStackEmpty :=
  ⟨(doc_persisted_after_upload_and_full_encode_failure_fatal envOneDoc 0
      ("eng") docA 0 initialState).1 _ qA 1 rfl
      (by intro f hf; simp [initialState] at hf),
    (doc_persisted_after_upload_and_full_encode_failure_fatal
      envAllFailEmb 0 ("eng") docB 0 initialState).2 [['a', 'b', 'c']]
      rfl (by decide) (fun sl _ b _ => rfl)⟩

/-- Claim C9 core: every embedding file written during a document's
processing holds at most MAX_NUM_TEXT_CHUNK_PROCESS records, but for a
document with more than MAX_NUM_TEXT_CHUNK_PROCESS chunks, a file written
during the build survives processing in a temporary directory that is
never deleted, and no upload event ever read that directory — the file is
never uploaded to the staging bucket, contradicting the claim that every
written file is uploaded before its directory is deleted. -/
theorem oversized_document_file_never_uploaded (env : Env) (qid : Nat)
    (qname dn du : String) (tc : List TextS) (ib : Nat)
    (st st' : SysState) (res : DocStepResult)
    (hfs : st.fileSystem = []) (htr : st.trace = [])
    (hlen : MAX_NUM_TEXT_CHUNK_PROCESS < tc.length)
    (h : index_and_persist_doc env qid qname dn du tc ib st =
      (st', Except.ok res)) :
    (∀ dd fn rs, Event.writeFile dd fn rs ∈ st'.trace →
      rs.length ≤ MAX_NUM_TEXT_CHUNK_PROCESS) ∧
    (∃ f, f ∈ st'.fileSystem ∧
      ∀ fn rs, Event.uploadFile f.dir fn rs ∉ st'.trace) := by
  unfold index_and_persist_doc at h
  cases hgen : generate_index_data env dn tc ib st with
  | mk st1 r =>
      rw [hgen] at h
      cases r with
      | error e => simp at h
      | ok pr =>
          obtain ⟨nb0, d⟩ := pr
          dsimp only at h
          rw [Prod.mk.injEq] at h
          obtain ⟨hstate, _⟩ := h
          subst hstate
          unfold generate_index_data at hgen
          have hok := gen_go_ok env dn _ ib none st st1 nb0 d hgen
            (chunkList_mem_length_le MAX_NUM_TEXT_CHUNK_PROCESS tc)
          obtain ⟨_, _, _, _, _, hdir1, _, ⟨trG, htrG, htrGp⟩,
            ⟨new, hfs1, hnewp, hnew2⟩, hdchar⟩ := hok
          obtain ⟨f0, hf0new, hf0lt⟩ := hnew2
            (chunkList_two_slices MAX_NUM_TEXT_CHUNK_PROCESS
              MAX_CHUNK_ne_zero tc hlen)
          have hfs1' : st1.fileSystem = new := by
            rw [hfs1, hfs, List.nil_append]
          have htrG' : st1.trace = trG := by
            rw [htrG, htr, List.nil_append]
          have hsave := save_chunks_go_ok qid
            (upload_and_cleanup d st1).nextModelId tc ib
            (save_query_document
              { id := (upload_and_cleanup d st1).nextModelId,
                queryEngineId := qid, queryEngine := qname, docUrl := du,
                indexStart := ib, indexEnd := nb0 }
              (upload_and_cleanup d st1))
          obtain ⟨_, _, hfsS, _, _, _, ⟨trC, htrS, htrSp⟩⟩ := hsave
          have htrace : (save_chunks_go qid
              (upload_and_cleanup d st1).nextModelId ib tc
              (save_query_document
                { id := (upload_and_cleanup d st1).nextModelId,
                  queryEngineId := qid, queryEngine := qname,
                  docUrl := du, indexStart := ib, indexEnd := nb0 }
                (upload_and_cleanup d st1))).trace =
              ((trG ++ (st1.fileSystem.filter (fun f => f.dir == d)).map
                  (fun f => Event.uploadFile f.dir f.fname f.records)) ++
                [Event.rmTree d]) ++
                [Event.saveDoc
                  { id := (upload_and_cleanup d st1).nextModelId,
                    queryEngineId := qid, queryEngine := qname,
                    docUrl := du, indexStart := ib,
                    indexEnd := nb0 }] ++ trC := by
            rw [htrS, save_query_document_trace, upload_and_cleanup_trace,
              htrG']
          have hfsys : (save_chunks_go qid
              (upload_and_cleanup d st1).nextModelId ib tc
              (save_query_document
                { id := (upload_and_cleanup d st1).nextModelId,
                  queryEngineId := qid, queryEngine := qname,
                  docUrl := du, indexStart := ib, indexEnd := nb0 }
                (upload_and_cleanup d st1))).fileSystem =
              new.filter (fun f => !(f.dir == d)) := by
            rw [hfsS, save_query_document_fileSystem,
              upload_and_cleanup_fileSystem, hfs1']
          constructor
          · intro dd fn rs hmem
            rw [htrace] at hmem
            rcases List.mem_append.mp hmem with hmem | hmem
            rotate_left
            · obtain ⟨c, hc⟩ := htrSp _ hmem
              cases hc
            rcases List.mem_append.mp hmem with hmem | hmem
            rotate_left
            · rcases List.mem_singleton.mp hmem with h'
              cases h'
            rcases List.mem_append.mp hmem with hmem | hmem
            rotate_left
            · rcases List.mem_singleton.mp hmem with h'
              cases h'
            rcases List.mem_append.mp hmem with hmem | hmem
            · rcases htrGp _ hmem with ⟨dd2, h'⟩ | ⟨dd2, fn2, rs2, h', hle⟩
              · cases h'
              · injection h' with h1 h2 h3
                rw [h3]
                exact hle
            · rw [List.mem_map] at hmem
              obtain ⟨fU, _, hU⟩ := hmem
              cases hU
          · refine ⟨f0, ?_, ?_⟩
            · rw [hfsys]
              rw [List.mem_filter]
              refine ⟨hf0new, ?_⟩
              simp only [Bool.not_eq_true', beq_eq_false_iff_ne]
              omega
            · intro fn rs hmem
              rw [htrace] at hmem
              rcases List.mem_append.mp hmem with hmem | hmem
              rotate_left
              · obtain ⟨c, hc⟩ := htrSp _ hmem
                cases hc
              rcases List.mem_append.mp hmem with hmem | hmem
              rotate_left
              · rcases List.mem_singleton.mp hmem with h'
                cases h'
              rcases List.mem_append.mp hmem with hmem | hmem
              rotate_left
              · rcases List.mem_singleton.mp hmem with h'
                cases h'
              rcases List.mem_append.mp hmem with hmem | hmem
              · rcases htrGp _ hmem with ⟨dd2, h'⟩ | ⟨dd2, fn2, rs2, h', _⟩
                · cases h'
                · cases h'
              · rw [List.mem_map] at hmem
                obtain ⟨fU, hUmem, hU⟩ := hmem
                rw [List.mem_filter] at hUmem
                have hUd : fU.dir = d := by
                  have := hUmem.2
                  rw [beq_iff_eq] at this
                  exact this
                injection hU with h1 h2 h3
                omega

/-- Environment with an always-succeeding embedding model producing tiny
vectors. -/
def envBigDoc : Env :=
  { batchFails := fun _ => false, embedOne := fun _ => [],
    docs := [], createIndexFails := false }

/-- Witness for claim C9 at a concrete document of 1001 one-character
chunks: processing succeeds, yet a written embedding file survives in a
never-deleted temporary directory that no upload ever read. -/
theorem oversized_document_file_never_uploaded_witness :
    ∃ st' res, index_and_persist_doc envBigDoc 0 ("eng") ("big.txt")
        ("u-big") (List.replicate 1001 (['a'] : TextS)) 0 initialState =
      (st', Except.ok res) ∧
      (∀ dd fn rs, Event.writeFile dd fn rs ∈ st'.trace →
        rs.length ≤ MAX_NUM_TEXT_CHUNK_PROCESS) ∧
      (∃ f, f ∈ st'.fileSystem ∧
        ∀ fn rs, Event.uploadFile f.dir fn rs ∉ st'.trace) := by
  have hne : List.replicate 1001 (['a'] : TextS) ≠ [] := by
    apply List.ne_nil_of_length_pos
    rw [List.length_replicate]
    decide
  obtain ⟨st', q, heq, _, _, _⟩ := index_and_persist_exists_ok envBigDoc
    0 ("eng") ("big.txt") ("u-big") (List.replicate 1001 ['a']) 0
    initialState hne (fun s _ b _ => rfl)
  have hc := oversized_document_file_never_uploaded envBigDoc 0 ("eng")
    ("big.txt") ("u-big") (List.replicate 1001 ['a']) 0 initialState st'
    _ rfl rfl (by rw [List.length_replicate]; decide) heq
  exact ⟨st', _, heq, hc.1, hc.2⟩

/-- Environment whose second (short) embedding batch fails whole. -/
def env7 : Env :=
  { batchFails := fun b => b.length == 2,
    embedOne := fun _ => [5],
    docs := [], createIndexFails := false }

/-- Witness for claim C7 at a concrete seven-chunk document starting at
index_base 3, whose last two chunks fail encoding. -/
theorem generate_index_data_ids_witness :
    (10 : Nat) = 3 + sevenChunks.length ∧
    ∃ new, ((generate_index_data env7 ("d") sevenChunks 3
        initialState).1).fileSystem = initialState.fileSystem ++ new ∧
      new.flatMap (fun f => f.records) =
        maskFilter (docMask env7 sevenChunks)
          ((List.range' 3 sevenChunks.length).zip
            (sevenChunks.map env7.embedOne)) ∧
      ((new.flatMap (fun f => f.records)).map Prod.fst).Pairwise
        (fun a b => a < b) :=
  generate_index_data_ids env7 ("d") sevenChunks 3 initialState _ 10 0
    rfl
